import Mathlib

/-!
Verification of the shiftpalette scheduling core.

This file gives a shallow embedding of the constraint-evaluation engine
(src/src/lib/constraintChecker.ts: checkConstraints, evaluateCandidates,
findSwapSuggestions, findShortages) and of the shift generator
(class ShiftGenerator in the same file, plus the counting helpers of
src/unnamed/part_001, shiftCountUtils), and proves the frozen claims
about them.

Modelling conventions:
- JS strings for shift codes become the inductive type Cell; the empty
  string / undefined cell both read back as Cell.emp, matching the
  sources normalisation via fallback-to-empty on every read.
- A schedule Record keyed by formatted date strings is embedded keyed by
  the day number of the target month: every access in the embedded code
  goes through getFormattedDate(year, month, day), which is injective in
  day for the fixed year/month of a run, so day-number keying is
  observationally equivalent.  The checker day map is an association
  list (staffId, cell) because the source enumerates its keys; the
  generator schedule is a total function, because the generator never
  enumerates keys.
- Floating point only occurs in the fairness average; sums of small
  naturals are exact in float64, so the comparison against the average
  is embedded exactly by cross-multiplying with the cohort size.
- The calls to Math.random (phase 3 and phase 4 tie-breaking) are
  embedded as an explicit shuffle parameter: a function from a call
  counter and a list to an arbitrary list.  Every theorem quantifies
  over the parameter, so every concrete randomised behaviour of the
  source is an instance.
-/

namespace ShiftPalette

/-- Modelled from the spec: src/lib/utils.ts is not under src/; per spec
section 2 the calendar utilities are pure leaf functions (day-of-week,
holiday lookup, date-key formatting).  Gregorian leap-year rule. -/
def isLeapYear (y : Nat) : Bool :=
  (y % 4 == 0 && y % 100 != 0) || y % 400 == 0

/-- Modelled from the spec: number of days of the target month,
standard Gregorian calendar (spec section 2, calendar utilities). -/
def getDaysInMonth (y m : Nat) : Nat :=
  if m = 2 then (if isLeapYear y then 29 else 28)
  else if m = 4 ∨ m = 6 ∨ m = 9 ∨ m = 11 then 30
  else 31

/-- Modelled from the spec: day of week as returned by the JS Date
getDay method, 0 = Sunday .. 6 = Saturday, via the Sakamoto formula for
the Gregorian calendar. -/
def dayOfWeek (y m d : Nat) : Nat :=
  let t : List Nat := [0, 3, 2, 5, 0, 3, 5, 1, 4, 6, 2, 4]
  let y2 := if m < 3 then y - 1 else y
  (y2 + y2 / 4 + y2 / 400 + t.getD (m - 1) 0 + d - y2 / 100) % 7

/-- Modelled from the spec: two-digit zero padding used by the
YYYY-MM-DD date-key format (spec section 6). -/
def pad2 (n : Nat) : String :=
  if n < 10 then "0" ++ toString n else toString n

/-- Modelled from the spec: ISO YYYY-MM-DD date-key formatting
(spec section 6, schedule interchange shape). -/
def getFormattedDate (y m d : Nat) : String :=
  toString y ++ "-" ++ pad2 m ++ "-" ++ pad2 d

/-- A schedule cell (TS ShiftPatternId): six work bands, the three
reserved codes fu = compensatory day off, yu = paid leave,
kyu = regular day off, and emp = the empty string / absent cell. -/
inductive Cell
  | A | B | C | D | E | J
  | fu   -- compensatory day off
  | yu   -- paid leave
  | kyu  -- regular day off
  | emp  -- empty / unassigned
  deriving DecidableEq, Repr

/-- TS StaffPosition. -/
inductive StaffPosition
  | director | chief | caregiver | partPos | cook
  deriving DecidableEq, Repr

/-- TS StaffShiftType. -/
inductive StaffShiftType
  | noShift | backup | regular | partTime | cooking
  deriving DecidableEq, Repr

/-- TS StaffRole (null modelled as norole). -/
inductive StaffRole
  | infant | toddler | free | cookRole | norole
  deriving DecidableEq, Repr

/-- TS Staff (fields not read by the embedded core are omitted:
preferredShifts, weeklyDays, defaultTimeRange). -/
structure Staff where
  id : Nat
  name : String
  position : StaffPosition
  shiftType : StaffShiftType
  role : StaffRole
  incompatibleWith : List Nat
  earlyShiftLimit : Option Nat
  saturdayOnly : Bool
  hasQualification : Bool
  deriving DecidableEq, Repr

/-- TS Holiday. -/
structure Holiday where
  date : String
  name : String
  deriving DecidableEq, Repr

/-- TS Settings. -/
structure Settings where
  saturdayStaffCount : Nat
  saturdayShiftPattern : Cell
  deriving DecidableEq, Repr

/-- Modelled from the spec: holiday lookup (spec section 2, calendar
utilities; a list entry whose date equals the formatted key). -/
def checkIsHoliday (dateStr : String) (holidays : List Holiday) : Bool :=
  holidays.any (fun h => h.date == dateStr)

/-- TS TimeRange for part-time staff; the field countAsShifts is the
optional credit list (none = absent). -/
structure TimeRange where
  startT : String
  endT : String
  countAsShifts : Option (List Cell)
  deriving DecidableEq, Repr

/-- A day map of the checker schedule: the (staffId, cell) entries of
the Record for one date key. -/
abbrev DayMap := List (Nat × Cell)

/-- Raw record access schedule[dateStr]?.[staffId]: none when the key
is absent. -/
def cellLookup (dm : DayMap) (sid : Nat) : Option Cell :=
  dm.lookup sid

/-- The list of days 1..n of the month. -/
def daysList (n : Nat) : List Nat :=
  (List.range n).map (· + 1)

namespace Checker

/-- TS ConstraintViolation type tag. -/
inductive VType
  | hard | soft
  deriving DecidableEq, Repr

/-- TS ConstraintCode. -/
inductive ConstraintCode
  | J_TO_A | CONSECUTIVE_A | CONSECUTIVE_J | INCOMPATIBLE
  | WEEKLY_AJ_LIMIT | MIN_COUNT_A | MIN_COUNT_J | MIN_TOTAL
  | EARLY_LIMIT | FAIRNESS_A | FAIRNESS_J | FAIRNESS_SAT
  deriving DecidableEq, Repr

/-- TS ConstraintViolation. -/
structure ConstraintViolation where
  type : VType
  code : ConstraintCode
  message : String
  deriving DecidableEq, Repr

/-- TS CandidateEvaluation. -/
structure CandidateEvaluation where
  staffId : Nat
  staffName : String
  violations : List ConstraintViolation
  isAssignable : Bool
  currentShift : Cell
  deriving DecidableEq, Repr

/-- TS ConstraintContext; the schedule is keyed by day number of the
fixed year/month (see file header). -/
structure ConstraintContext where
  schedule : Nat → DayMap
  staff : List Staff
  holidays : List Holiday
  settings : Settings
  year : Nat
  month : Nat

/-- getShift of constraintChecker.ts: cell read with empty fallback. -/
def getShift (ctx : ConstraintContext) (day sid : Nat) : Cell :=
  (cellLookup (ctx.schedule day) sid).getD Cell.emp

/-- isHoliday of constraintChecker.ts (listed holidays only). -/
def isHoliday (ctx : ConstraintContext) (day : Nat) : Bool :=
  checkIsHoliday (getFormattedDate ctx.year ctx.month day) ctx.holidays

/-- isSunday of constraintChecker.ts. -/
def isSunday (ctx : ConstraintContext) (day : Nat) : Bool :=
  dayOfWeek ctx.year ctx.month day = 0

/-- Descending scan of getPreviousWorkDay. -/
def prevWorkAux (ctx : ConstraintContext) : Nat → Nat
  | 0 => 0
  | d + 1 =>
    if ¬ isSunday ctx (d + 1) ∧ ¬ isHoliday ctx (d + 1) then d + 1
    else prevWorkAux ctx d

/-- getPreviousWorkDay of constraintChecker.ts. -/
def getPreviousWorkDay (ctx : ConstraintContext) (day : Nat) : Nat :=
  prevWorkAux ctx (day - 1)

/-- Ascending scan of getNextWorkDay (k counts remaining candidates). -/
def nextWorkAux (ctx : ConstraintContext) : Nat → Nat → Nat
  | 0, _ => 0
  | k + 1, d =>
    if ¬ isSunday ctx d ∧ ¬ isHoliday ctx d then d
    else nextWorkAux ctx k (d + 1)

/-- getNextWorkDay of constraintChecker.ts. -/
def getNextWorkDay (ctx : ConstraintContext) (day : Nat) : Nat :=
  let dim := getDaysInMonth ctx.year ctx.month
  nextWorkAux ctx (dim - day) (day + 1)

/-- countMonthlyPattern of constraintChecker.ts. -/
def countMonthlyPattern (ctx : ConstraintContext) (sid : Nat) (pattern : Cell) : Nat :=
  (daysList (getDaysInMonth ctx.year ctx.month)).countP
    (fun d => getShift ctx d sid = pattern)

/-- countEarlyShifts of constraintChecker.ts (A and B). -/
def countEarlyShifts (ctx : ConstraintContext) (sid : Nat) : Nat :=
  (daysList (getDaysInMonth ctx.year ctx.month)).countP
    (fun d => getShift ctx d sid = Cell.A ∨ getShift ctx d sid = Cell.B)

/-- countDayPattern of constraintChecker.ts: enumerates the entries of
the day record. -/
def countDayPattern (ctx : ConstraintContext) (day : Nat) (pattern : Cell) : Nat :=
  (ctx.schedule day).countP (fun p => p.2 = pattern)

/-- checkJToAViolation of constraintChecker.ts. -/
def checkJToAViolation (ctx : ConstraintContext) (day sid : Nat) (shift : Cell) :
    Option ConstraintViolation :=
  if shift ≠ Cell.A then none
  else
    let prevDay := getPreviousWorkDay ctx day
    if prevDay = 0 then none
    else if getShift ctx prevDay sid = Cell.J then
      some ⟨VType.hard, ConstraintCode.J_TO_A, "J to A violation, previous day latest"⟩
    else none

/-- checkAToJViolation of constraintChecker.ts. -/
def checkAToJViolation (ctx : ConstraintContext) (day sid : Nat) (shift : Cell) :
    Option ConstraintViolation :=
  if shift ≠ Cell.J then none
  else
    let nextDay := getNextWorkDay ctx day
    if nextDay = 0 then none
    else if getShift ctx nextDay sid = Cell.A then
      some ⟨VType.hard, ConstraintCode.J_TO_A, "J to A violation, next day earliest"⟩
    else none

/-- checkConsecutiveViolation of constraintChecker.ts. -/
def checkConsecutiveViolation (ctx : ConstraintContext) (day sid : Nat) (shift : Cell) :
    Option ConstraintViolation :=
  if shift ≠ Cell.A ∧ shift ≠ Cell.J then none
  else
    let prevDay := getPreviousWorkDay ctx day
    if prevDay > 0 ∧ getShift ctx prevDay sid = shift then
      some ⟨VType.hard,
        (if shift = Cell.A then ConstraintCode.CONSECUTIVE_A else ConstraintCode.CONSECUTIVE_J),
        "consecutive extreme shift"⟩
    else
      let nextDay := getNextWorkDay ctx day
      if nextDay > 0 ∧ getShift ctx nextDay sid = shift then
        some ⟨VType.hard,
          (if shift = Cell.A then ConstraintCode.CONSECUTIVE_A else ConstraintCode.CONSECUTIVE_J),
          "consecutive extreme shift"⟩
      else none

/-- checkIncompatibleViolation of constraintChecker.ts: scans the
queried staff members own incompatibleWith list; the comparison is
against the raw record entry (absent key never matches). -/
def checkIncompatibleViolation (ctx : ConstraintContext) (day sid : Nat) (shift : Cell) :
    Option ConstraintViolation :=
  match ctx.staff.find? (fun s => s.id = sid) with
  | none => none
  | some targetStaff =>
    if targetStaff.incompatibleWith.isEmpty then none
    else if targetStaff.incompatibleWith.any
        (fun incompatibleId => cellLookup (ctx.schedule day) incompatibleId = some shift) then
      some ⟨VType.hard, ConstraintCode.INCOMPATIBLE, "incompatible staff on same shift"⟩
    else none

/-- checkWeeklyAJLimitViolation of constraintChecker.ts: counts A or J
cells of the Monday-Saturday week window, excluding the queried day,
days before day 1 and days after the month end. -/
def checkWeeklyAJLimitViolation (ctx : ConstraintContext) (day sid : Nat) (shift : Cell) :
    Option ConstraintViolation :=
  if shift ≠ Cell.A ∧ shift ≠ Cell.J then none
  else
    let dow := dayOfWeek ctx.year ctx.month day
    if dow = 0 then none
    else
      let dim := getDaysInMonth ctx.year ctx.month
      let startOfWeek : Int := (day : Int) - ((dow : Int) - 1)
      let weekDays := (List.range 6).map (fun i => startOfWeek + (i : Int))
      let count := weekDays.countP (fun v =>
        if v < 1 ∨ v = (day : Int) ∨ v > (dim : Int) then false
        else
          getShift ctx v.toNat sid = Cell.A ∨ getShift ctx v.toNat sid = Cell.J)
      if count ≥ 1 then
        some ⟨VType.hard, ConstraintCode.WEEKLY_AJ_LIMIT, "second A or J in week"⟩
      else none

/-- checkMinCountViolation of constraintChecker.ts: looks only at the
current same-day assignment; the candidate shift is ignored. -/
def checkMinCountViolation (ctx : ConstraintContext) (day sid : Nat) (_newShift : Cell) :
    Option ConstraintViolation :=
  let currentShift := getShift ctx day sid
  if currentShift = Cell.A ∨ currentShift = Cell.J then
    if countDayPattern ctx day currentShift ≤ 2 then
      some ⟨VType.hard,
        (if currentShift = Cell.A then ConstraintCode.MIN_COUNT_A else ConstraintCode.MIN_COUNT_J),
        "band would drop below minimum"⟩
    else none
  else none

/-- checkEarlyLimitViolation of constraintChecker.ts (soft). -/
def checkEarlyLimitViolation (ctx : ConstraintContext) (_day sid : Nat) (shift : Cell) :
    Option ConstraintViolation :=
  if shift ≠ Cell.A ∧ shift ≠ Cell.B then none
  else
    match ctx.staff.find? (fun s => s.id = sid) with
    | none => none
    | some targetStaff =>
      match targetStaff.earlyShiftLimit with
      | none => none
      | some lim =>
        if countEarlyShifts ctx sid ≥ lim then
          some ⟨VType.soft, ConstraintCode.EARLY_LIMIT, "monthly early shift limit reached"⟩
        else none

/-- checkFairnessViolation of constraintChecker.ts (soft).  The float
comparison myCount > sum/n + 1 is embedded exactly by cross-multiplying
with the positive cohort size n (the sums are small naturals, exact in
float64). -/
def checkFairnessViolation (ctx : ConstraintContext) (_day sid : Nat) (shift : Cell) :
    Option ConstraintViolation :=
  if shift ≠ Cell.A ∧ shift ≠ Cell.J then none
  else
    let regularStaff := ctx.staff.filter (fun s => s.shiftType = StaffShiftType.regular)
    if regularStaff.isEmpty then none
    else
      let counts := regularStaff.map (fun s => countMonthlyPattern ctx s.id shift)
      match ctx.staff.find? (fun s => s.id = sid) with
      | none => none
      | some targetStaff =>
        if targetStaff.shiftType ≠ StaffShiftType.regular then none
        else
          let myCount := countMonthlyPattern ctx sid shift
          if myCount * counts.length > counts.sum + counts.length then
            some ⟨VType.soft,
              (if shift = Cell.A then ConstraintCode.FAIRNESS_A else ConstraintCode.FAIRNESS_J),
              "count above cohort average"⟩
          else none

/-- checkConstraints of constraintChecker.ts: hard checks then soft
checks, each present violation appended in order. -/
def checkConstraints (ctx : ConstraintContext) (day sid : Nat) (newShift : Cell) :
    List ConstraintViolation :=
  (checkJToAViolation ctx day sid newShift).toList ++
  (checkAToJViolation ctx day sid newShift).toList ++
  (checkConsecutiveViolation ctx day sid newShift).toList ++
  (checkIncompatibleViolation ctx day sid newShift).toList ++
  (checkWeeklyAJLimitViolation ctx day sid newShift).toList ++
  (checkMinCountViolation ctx day sid newShift).toList ++
  (checkEarlyLimitViolation ctx day sid newShift).toList ++
  (checkFairnessViolation ctx day sid newShift).toList

/-- The sort order of evaluateCandidates: the JS comparator as a
boolean less-or-equal (assignable first, then ascending violation
count). -/
def candidateLe (a b : CandidateEvaluation) : Bool :=
  if a.isAssignable != b.isAssignable then a.isAssignable
  else a.violations.length ≤ b.violations.length

/-- The evaluation record built for one candidate staff member. -/
def evalOf (ctx : ConstraintContext) (day : Nat) (targetShift : Cell) (s : Staff) :
    CandidateEvaluation :=
  let violations := checkConstraints ctx day s.id targetShift
  { staffId := s.id
    staffName := s.name
    violations := violations
    isAssignable := ! violations.any (fun v => v.type == VType.hard)
    currentShift := getShift ctx day s.id }

/-- evaluateCandidates of constraintChecker.ts: regular and backup
staff, skipping those already on the target shift and those on paid
leave or compensatory day off, sorted by the stable JS sort under the
comparator. -/
def evaluateCandidates (ctx : ConstraintContext) (day : Nat) (targetShift : Cell) :
    List CandidateEvaluation :=
  let eligibleStaff := ctx.staff.filter
    (fun s => s.shiftType = StaffShiftType.regular ∨ s.shiftType = StaffShiftType.backup)
  let candidates := eligibleStaff.filterMap (fun s =>
    let currentShift := getShift ctx day s.id
    if currentShift = targetShift then none
    else if currentShift = Cell.yu ∨ currentShift = Cell.fu then none
    else some (evalOf ctx day targetShift s))
  candidates.mergeSort candidateLe

/-- TS SwapSuggestion staff reference. -/
structure SwapStaffRef where
  id : Nat
  name : String
  currentShift : Cell
  deriving DecidableEq, Repr

/-- TS SwapSuggestion. -/
structure SwapSuggestion where
  staffA : SwapStaffRef
  staffB : SwapStaffRef
  description : String
  benefit : String
  deriving DecidableEq, Repr

/-- Inner loop of findSwapSuggestions: scan candidates B for one fixed
candidate A; the boolean reports the early return at three
suggestions. -/
def swapInner (ctx : ConstraintContext) (day : Nat) (candidateA : Staff)
    (currentShiftA : Cell) :
    List Staff → List SwapSuggestion → (List SwapSuggestion × Bool)
  | [], acc => (acc, false)
  | b :: rest, acc =>
    if b.id = candidateA.id then swapInner ctx day candidateA currentShiftA rest acc
    else
      let currentShiftB := (cellLookup (ctx.schedule day) b.id).getD Cell.emp
      if currentShiftB = Cell.yu ∨ currentShiftB = Cell.fu ∨ currentShiftB = currentShiftA then
        swapInner ctx day candidateA currentShiftA rest acc
      else
        let violationsB := checkConstraints ctx day b.id currentShiftA
        if violationsB.any (fun v => v.type == VType.hard) then
          swapInner ctx day candidateA currentShiftA rest acc
        else
          let acc2 := acc ++ [{
            staffA := ⟨candidateA.id, candidateA.name, currentShiftA⟩
            staffB := ⟨b.id, b.name, currentShiftB⟩
            description := candidateA.name ++ " and " ++ b.name
            benefit := "shortage band secured" }]
          if acc2.length ≥ 3 then (acc2, true)
          else swapInner ctx day candidateA currentShiftA rest acc2

/-- Outer loop of findSwapSuggestions: scan candidates A. -/
def swapOuter (ctx : ConstraintContext) (day : Nat) (shortagePattern : Cell)
    (regularStaff : List Staff) :
    List Staff → List SwapSuggestion → List SwapSuggestion
  | [], acc => acc
  | a :: rest, acc =>
    let currentShiftA := (cellLookup (ctx.schedule day) a.id).getD Cell.emp
    if currentShiftA = shortagePattern ∨ currentShiftA = Cell.yu ∨
        currentShiftA = Cell.fu ∨ currentShiftA = Cell.kyu ∨ currentShiftA = Cell.emp then
      swapOuter ctx day shortagePattern regularStaff rest acc
    else
      let violationsA := checkConstraints ctx day a.id shortagePattern
      if violationsA.any (fun v => v.type == VType.hard) then
        swapOuter ctx day shortagePattern regularStaff rest acc
      else
        let res := swapInner ctx day a currentShiftA regularStaff acc
        if res.2 then res.1
        else swapOuter ctx day shortagePattern regularStaff rest res.1

/-- findSwapSuggestions of constraintChecker.ts. -/
def findSwapSuggestions (ctx : ConstraintContext) (day : Nat) (shortagePattern : Cell) :
    List SwapSuggestion :=
  let regularStaff := ctx.staff.filter
    (fun s => s.shiftType = StaffShiftType.regular ∨ s.shiftType = StaffShiftType.backup)
  swapOuter ctx day shortagePattern regularStaff regularStaff []

/-- One findShortages entry. -/
structure Shortage where
  pattern : Cell
  current : Nat
  required : Nat
  deriving DecidableEq, Repr

/-- findShortages of constraintChecker.ts. -/
def findShortages (ctx : ConstraintContext) (day : Nat) : List Shortage :=
  let minCounts : List (Cell × Nat) := [(Cell.A, 2), (Cell.J, 2)]
  minCounts.filterMap (fun pm =>
    let count := (ctx.schedule day).countP (fun p => p.2 = pm.1)
    if count < pm.2 then some ⟨pm.1, count, pm.2⟩ else none)

end Checker

namespace Gen

/-- The generator schedule: a write log of ((day, staffId), cell)
entries, most recent first.  The source Record reads absent keys back
as the empty cell and never enumerates keys, so reading the most
recent write (or empty when none) is observationally equivalent. -/
abbrev GSched := List ((Nat × Nat) × Cell)

/-- Read one cell of the generator schedule: the most recent write, or
the empty cell (the Record read this.schedule[dateStr]?.[staffId] with
empty fallback). -/
def cellAt : GSched → Nat → Nat → Cell
  | [], _, _ => Cell.emp
  | (k, v) :: rest, day, sid =>
    if k.1 = day ∧ k.2 = sid then v else cellAt rest day sid

/-- The constructor arguments of ShiftGenerator, plus the shuffle
parameter embedding the Math.random tie-breaking: an arbitrary
rearrangement indexed by a call counter, so that every concrete
randomised run of the source is an instance. -/
structure GenCfg where
  staff : List Staff
  holidays : List Holiday
  settings : Settings
  year : Nat
  month : Nat
  timeRangeSchedule : Nat → Nat → Option TimeRange
  shuffle : Nat → List Staff → List Staff

/-- daysInMonth field of ShiftGenerator. -/
def GenCfg.daysInMonth (cfg : GenCfg) : Nat :=
  getDaysInMonth cfg.year cfg.month

/-- The generator working state: the private schedule plus the shuffle
call counter. -/
structure GSt where
  sched : GSched
  rng : Nat

/-- A raw write this.schedule[dateStr][staffId] = shift. -/
def updateCell (sch : GSched) (day sid : Nat) (v : Cell) : GSched :=
  ((day, sid), v) :: sch

/-- this.staff.find by id. -/
def GenCfg.findStaff (cfg : GenCfg) (sid : Nat) : Option Staff :=
  cfg.staff.find? (fun s => s.id = sid)

/-- setShift of ShiftGenerator: never overwrites paid leave or
compensatory day off; never overwrites a part-timer cell other than
empty or regular day off. -/
def setShift (cfg : GenCfg) (sch : GSched) (day sid : Nat) (shift : Cell) : GSched :=
  let current := cellAt sch day sid
  if current = Cell.yu ∨ current = Cell.fu then sch
  else if ((cfg.findStaff sid).any fun st => st.shiftType == StaffShiftType.partTime) &&
      current != Cell.emp && current != Cell.kyu then sch
  else updateCell sch day sid shift

/-- isHoliday of ShiftGenerator: Sundays count as holidays. -/
def gIsHoliday (cfg : GenCfg) (day : Nat) : Bool :=
  dayOfWeek cfg.year cfg.month day == 0 ||
    checkIsHoliday (getFormattedDate cfg.year cfg.month day) cfg.holidays

/-- isSaturday of ShiftGenerator. -/
def gIsSaturday (cfg : GenCfg) (day : Nat) : Bool :=
  dayOfWeek cfg.year cfg.month day == 6 && ! gIsHoliday cfg day

/-- Descending scan of the generator getPreviousWorkDay. -/
def gPrevWorkAux (cfg : GenCfg) : Nat → Nat
  | 0 => 0
  | d + 1 => if ! gIsHoliday cfg (d + 1) then d + 1 else gPrevWorkAux cfg d

/-- getPreviousWorkDay of ShiftGenerator (skips holidays and Sundays). -/
def gGetPreviousWorkDay (cfg : GenCfg) (day : Nat) : Nat :=
  gPrevWorkAux cfg (day - 1)

/-- countWorkingStaff of ShiftGenerator: excludes cooking staff and the
director; a cell counts when it is a non-empty non-off code. -/
def gCountWorkingStaff (cfg : GenCfg) (sch : GSched) (day : Nat) : Nat :=
  cfg.staff.countP (fun s =>
    if s.shiftType == StaffShiftType.cooking || s.position == StaffPosition.director then false
    else
      let shift := cellAt sch day s.id
      shift != Cell.emp && shift != Cell.kyu && shift != Cell.fu && shift != Cell.yu)

/-- countEffectiveShift of shiftCountUtils: schedule cells for
non-part-time staff, credited countAsShifts time ranges for part-time
staff, optionally restricted to qualified staff. -/
def countEffectiveShift (staff : List Staff) (sch : GSched)
    (trs : Nat → Nat → Option TimeRange) (day : Nat) (pattern : Cell)
    (qualifiedOnly : Bool) : Nat :=
  staff.countP (fun s =>
    if s.shiftType == StaffShiftType.partTime then
      (!qualifiedOnly || s.hasQualification) &&
        ((trs day s.id).any fun tr => (tr.countAsShifts.getD []).contains pattern)
    else
      (!qualifiedOnly || s.hasQualification) && cellAt sch day s.id == pattern)

/-- countQualifiedPartTimers of shiftCountUtils. -/
def countQualifiedPartTimers (staff : List Staff)
    (trs : Nat → Nat → Option TimeRange) (day : Nat) (pattern : Cell) : Nat :=
  staff.countP (fun s =>
    s.shiftType == StaffShiftType.partTime && s.hasQualification &&
      ((trs day s.id).any fun tr => (tr.countAsShifts.getD []).contains pattern))

/-- countPattern of ShiftGenerator (qualified-only effective count). -/
def gCountPattern (cfg : GenCfg) (sch : GSched) (day : Nat) (pattern : Cell) : Nat :=
  countEffectiveShift cfg.staff sch cfg.timeRangeSchedule day pattern true

/-- countTotalShifts of ShiftGenerator. -/
def countTotalShifts (cfg : GenCfg) (sch : GSched) (sid : Nat) (pattern : Cell) : Nat :=
  (daysList cfg.daysInMonth).countP (fun d => cellAt sch d sid == pattern)

/-- Combined A, B, J historical count used by several sorts. -/
def abjCount (cfg : GenCfg) (sch : GSched) (sid : Nat) : Nat :=
  countTotalShifts cfg sch sid Cell.A + countTotalShifts cfg sch sid Cell.B +
    countTotalShifts cfg sch sid Cell.J

/-- hasIncompatibleConflict of ShiftGenerator. -/
def hasIncompatibleConflict (cfg : GenCfg) (sch : GSched) (day sid : Nat) (shift : Cell) : Bool :=
  match cfg.findStaff sid with
  | none => false
  | some st =>
    if st.incompatibleWith.isEmpty then false
    else st.incompatibleWith.any (fun iid => cellAt sch day iid == shift)

/-- isEarlyShiftLimitExceeded of ShiftGenerator. -/
def isEarlyShiftLimitExceeded (cfg : GenCfg) (sch : GSched) (sid : Nat) : Bool :=
  match cfg.findStaff sid with
  | none => false
  | some st =>
    match st.earlyShiftLimit with
    | none => false
    | some lim =>
      ((daysList cfg.daysInMonth).countP
        (fun d => cellAt sch d sid == Cell.A || cellAt sch d sid == Cell.B)) ≥ lim

/-- checkConsecutiveShiftViolation of ShiftGenerator (previous work day
only). -/
def checkConsecutiveShiftViolation (cfg : GenCfg) (sch : GSched) (day sid : Nat)
    (shift : Cell) : Bool :=
  let prevDay := gGetPreviousWorkDay cfg day
  if prevDay == 0 then false
  else
    (shift == Cell.A && cellAt sch prevDay sid == Cell.A) ||
      (shift == Cell.J && cellAt sch prevDay sid == Cell.J)

/-- hasWeeklyAJLimitConflict of ShiftGenerator: A or J already present
in the Monday window strictly before the day. -/
def hasWeeklyAJLimitConflict (cfg : GenCfg) (sch : GSched) (day sid : Nat) : Bool :=
  let dow := dayOfWeek cfg.year cfg.month day
  if dow == 0 then false
  else
    let startOfWeek : Int := (day : Int) - ((dow : Int) - 1)
    let ds := (List.range (dow - 1)).map (fun i => startOfWeek + (i : Int))
    (ds.countP (fun v =>
      if v < 1 then false
      else cellAt sch v.toNat sid == Cell.A || cellAt sch v.toNat sid == Cell.J)) ≥ 1

/-- The seeded value of one cell in the ShiftGenerator constructor:
part-time cells are carried over entirely, all other cells only when
they hold paid leave or compensatory day off. -/
def seedCell (s : Staff) (existing : Cell) : Cell :=
  if s.shiftType = StaffShiftType.partTime then existing
  else if existing = Cell.yu ∨ existing = Cell.fu then existing
  else Cell.emp

/-- The constructor loop of ShiftGenerator: seed the private schedule
from the caller-supplied current schedule. -/
def initSchedule (cfg : GenCfg) (cur : GSched) : GSched :=
  (daysList cfg.daysInMonth).foldl
    (fun sch d =>
      cfg.staff.foldl (fun sch2 s => updateCell sch2 d s.id (seedCell s (cellAt cur d s.id))) sch)
    []

/-- phase1_Director of ShiftGenerator. -/
def phase1_Director (cfg : GenCfg) (st : GSt) : GSt :=
  match cfg.staff.find? (fun s => s.position == StaffPosition.director) with
  | none => st
  | some director =>
    let sched2 := (daysList cfg.daysInMonth).foldl
      (fun sch d => setShift cfg sch d director.id Cell.kyu) st.sched
    { st with sched := sched2 }

/-- phase2_Chief of ShiftGenerator: a no-op, the chief is reserved for
phase 7. -/
def phase2_Chief (_cfg : GenCfg) (st : GSt) : GSt := st

/-- phase2_5_Cooking of ShiftGenerator: cooks off on holidays, exactly
one cook (round-robin) on Saturdays, all cooks on the standard band on
other days. -/
def phase2_5_Cooking (cfg : GenCfg) (st : GSt) : GSt :=
  let cooks := cfg.staff.filter (fun s => s.shiftType == StaffShiftType.cooking)
  if cooks.isEmpty then st
  else
    let res := (daysList cfg.daysInMonth).foldl
      (fun (p : GSched × Nat) d =>
        if gIsHoliday cfg d then
          (cooks.foldl (fun sch c => setShift cfg sch d c.id Cell.kyu) p.1, p.2)
        else if gIsSaturday cfg d then
          let workingCookIndex := p.2 % cooks.length
          let sch2 := cooks.enum.foldl
            (fun sch ic =>
              if ic.1 = workingCookIndex then setShift cfg sch d ic.2.id Cell.B
              else setShift cfg sch d ic.2.id Cell.kyu) p.1
          (sch2, p.2 + 1)
        else
          (cooks.foldl (fun sch c => setShift cfg sch d c.id Cell.B) p.1, p.2))
      (st.sched, 0)
    { st with sched := res.1 }

/-- Working state of phase3_Saturday: schedule, per-staff Saturday
counts, shuffle counter. -/
structure P3St where
  sched : GSched
  counts : Nat → Nat
  rng : Nat

/-- The per-selected-staff body of phase3_Saturday: assign the Saturday
band, bump the Saturday count, and grant a compensatory day off on the
same-week weekday with the fewest off entries (scanned Monday to
Friday, strict improvement, so ties keep the earliest). -/
def p3Selected (cfg : GenCfg) (day : Nat) (q : GSched × (Nat → Nat)) (s : Staff) :
    GSched × (Nat → Nat) :=
  let sch0 := setShift cfg q.1 day s.id cfg.settings.saturdayShiftPattern
  let counts := fun i => if i = s.id then q.2 i + 1 else q.2 i
  let best := [5, 4, 3, 2, 1].foldl
    (fun (bb : Option Nat × Nat) offset =>
      if day ≤ offset then bb   -- targetDay < 1
      else
        let td := day - offset
        if gIsHoliday cfg td then bb
        else
          let currentShift := cellAt sch0 td s.id
          if currentShift != Cell.emp && currentShift != Cell.kyu then bb
          else
            let totalOffCount :=
              gCountPattern cfg sch0 td Cell.fu + gCountPattern cfg sch0 td Cell.yu
            if totalOffCount < bb.2 then (some td, totalOffCount) else bb)
    (none, 999)
  let sch1 := match best.1 with
    | some bestDay => setShift cfg sch0 bestDay s.id Cell.fu
    | none => sch0
  (sch1, counts)

/-- The per-Saturday body of phase3_Saturday. -/
def p3Saturday (cfg : GenCfg) (qualifiedRegulars : List Staff) (st : P3St) (day : Nat) :
    P3St :=
  let partTimeCount := cfg.staff.countP (fun s =>
    s.shiftType == StaffShiftType.partTime &&
      (let sh := cellAt st.sched day s.id
       sh != Cell.emp && sh != Cell.kyu && sh != Cell.fu && sh != Cell.yu))
  let targetRegularCount := 3 - partTimeCount
  let candidates := (cfg.shuffle st.rng qualifiedRegulars).mergeSort
    (fun a b => st.counts a.id ≤ st.counts b.id)
  let selected := candidates.take targetRegularCount
  let p2 := selected.foldl (p3Selected cfg day) (st.sched, st.counts)
  let sch3 := cfg.staff.foldl
    (fun sch s =>
      if s.position == StaffPosition.director || s.shiftType == StaffShiftType.cooking ||
          s.shiftType == StaffShiftType.partTime then sch
      else if selected.any (fun sel => sel.id == s.id) then sch
      else setShift cfg sch day s.id Cell.kyu) p2.1
  ⟨sch3, p2.2, st.rng + 1⟩

/-- phase3_Saturday of ShiftGenerator. -/
def phase3_Saturday (cfg : GenCfg) (st : GSt) : GSt :=
  let saturdays := (daysList cfg.daysInMonth).filter (fun d => gIsSaturday cfg d)
  let qualifiedRegulars := cfg.staff.filter (fun s =>
    s.hasQualification && s.shiftType == StaffShiftType.regular &&
      s.position != StaffPosition.director)
  let res := saturdays.foldl (p3Saturday cfg qualifiedRegulars)
    ⟨st.sched, fun _ => 0, st.rng⟩
  ⟨res.sched, res.rng⟩

/-- The assignedIds test of phase4_RegularWeekday: a cell already
non-empty or an id assigned during this day. -/
def isAssignedF (sch : GSched) (day : Nat) (ids : List Nat) (sid : Nat) : Bool :=
  cellAt sch day sid != Cell.emp || ids.contains sid

/-- countExistingPattern of phase4_RegularWeekday (all staff,
schedule cells only). -/
def countExistingPattern (cfg : GenCfg) (sch : GSched) (day : Nat) (pattern : Cell) : Nat :=
  cfg.staff.countP (fun s => cellAt sch day s.id == pattern)

/-- The candidate gate of assignPattern (phase 4), of phase 6 and of
the phase-7 reassignment: for the earliest band the early-shift limit,
the consecutive repeat, the weekly cap (unless relaxed) and the
previous-day-latest check; for the latest band the consecutive repeat
and the weekly cap (unless relaxed); for every band the incompatibility
check.  Phase 6 and phase 7 use the relaxed gate (no weekly cap). -/
def p4Allowed (cfg : GenCfg) (sch : GSched) (day : Nat) (relax : Bool) (pattern : Cell)
    (s : Staff) : Bool :=
  (if pattern == Cell.A then
      !(isEarlyShiftLimitExceeded cfg sch s.id) &&
      !(checkConsecutiveShiftViolation cfg sch day s.id Cell.A) &&
      (relax || !(hasWeeklyAJLimitConflict cfg sch day s.id)) &&
      (let prevDay := gGetPreviousWorkDay cfg day
       !(decide (prevDay > 0) && cellAt sch prevDay s.id == Cell.J))
    else true) &&
  (if pattern == Cell.J then
      !(checkConsecutiveShiftViolation cfg sch day s.id Cell.J) &&
      (relax || !(hasWeeklyAJLimitConflict cfg sch day s.id))
    else true) &&
  !(hasIncompatibleConflict cfg sch day s.id pattern)

/-- The candidate loop of assignPattern: walk the sorted candidates,
assigning until the needed count is reached. -/
def assignLoop (cfg : GenCfg) (day : Nat) (relax : Bool) (pattern : Cell) (needed : Nat) :
    List Staff → GSched → List Nat → Nat → GSched × List Nat × Nat
  | [], sch, ids, count => (sch, ids, count)
  | s :: rest, sch, ids, count =>
    if count ≥ needed then (sch, ids, count)
    else if p4Allowed cfg sch day relax pattern s then
      assignLoop cfg day relax pattern needed rest
        (setShift cfg sch day s.id pattern) (s.id :: ids) (count + 1)
    else assignLoop cfg day relax pattern needed rest sch ids count

/-- The candidate ordering of assignPattern: the deterministic
sortByPatternCount comparator (pattern count, then combined A+B+J
count) for the extreme bands, or the default comparator (pattern count
with randomised tie-break, embedded as shuffle then stable sort). -/
def p4sort (cfg : GenCfg) (sch : GSched) (pattern : Cell) (detTie : Bool) (rng : Nat)
    (cands : List Staff) : List Staff × Nat :=
  if detTie then
    (cands.mergeSort (fun a b =>
      let ca := countTotalShifts cfg sch a.id pattern
      let cb := countTotalShifts cfg sch b.id pattern
      if ca = cb then abjCount cfg sch a.id ≤ abjCount cfg sch b.id else ca < cb), rng)
  else
    ((cfg.shuffle rng cands).mergeSort (fun a b =>
      countTotalShifts cfg sch a.id pattern ≤ countTotalShifts cfg sch b.id pattern),
      rng + 1)

/-- Working state of one phase-4 day: schedule, assignedIds, shuffle
counter. -/
structure P4St where
  sched : GSched
  ids : List Nat
  rng : Nat

/-- assignPattern of phase4_RegularWeekday.  All call sites pass
relaxConstraints = false, so the relaxed retry (weekly cap dropped) is
inlined as the second pass. -/
def assignPattern (cfg : GenCfg) (day : Nat) (pattern : Cell) (targetCount : Nat)
    (detTie : Bool) (regulars : List Staff) (st : P4St) : P4St :=
  let existingCount := countExistingPattern cfg st.sched day pattern
  let neededCount := targetCount - existingCount
  if neededCount = 0 then st
  else
    let candidates := regulars.filter (fun s => !(isAssignedF st.sched day st.ids s.id))
    let s1 := p4sort cfg st.sched pattern detTie st.rng candidates
    let r1 := assignLoop cfg day false pattern neededCount s1.1 st.sched st.ids 0
    if r1.2.2 < neededCount then
      let moreCandidates := regulars.filter (fun s => !(isAssignedF r1.1 day r1.2.1 s.id))
      let s2 := p4sort cfg r1.1 pattern detTie s1.2 moreCandidates
      let r2 := assignLoop cfg day true pattern neededCount s2.1 r1.1 r1.2.1 r1.2.2
      ⟨r2.1, r2.2.1, s2.2⟩
    else ⟨r1.1, r1.2.1, s1.2⟩

/-- The trailing fill of one phase-4 day: every still-unassigned
regular gets the base mid band, stepped forward once on an
early-limit or incompatibility conflict. -/
def p4Remaining (cfg : GenCfg) (day : Nat) (sch : GSched) (s : Staff) : GSched :=
  let shift0 := if isEarlyShiftLimitExceeded cfg sch s.id then Cell.C else Cell.B
  let shift1 :=
    if hasIncompatibleConflict cfg sch day s.id shift0 then
      if shift0 == Cell.B then Cell.C
      else if shift0 == Cell.C then Cell.D
      else if shift0 == Cell.D then Cell.E
      else shift0
    else shift0
  setShift cfg sch day s.id shift1

/-- One day of phase4_RegularWeekday. -/
def phase4Day (cfg : GenCfg) (regulars : List Staff) (st : GSt) (d : Nat) : GSt :=
  if gIsHoliday cfg d || gIsSaturday cfg d then st
  else
    let dow := dayOfWeek cfg.year cfg.month d
    let qpA := countQualifiedPartTimers cfg.staff cfg.timeRangeSchedule d Cell.A
    let qpJ := countQualifiedPartTimers cfg.staff cfg.timeRangeSchedule d Cell.J
    let neededA := 2 - qpA
    let neededJ := 2 - qpJ
    let st0 : P4St := ⟨st.sched, [], st.rng⟩
    let st1 :=
      if 1 ≤ dow ∧ dow ≤ 3 then
        assignPattern cfg d Cell.J neededJ true regulars
          (assignPattern cfg d Cell.A neededA true regulars st0)
      else
        assignPattern cfg d Cell.A neededA true regulars
          (assignPattern cfg d Cell.J neededJ true regulars st0)
    let st2 := assignPattern cfg d Cell.D 1 false regulars st1
    let st3 := assignPattern cfg d Cell.E 1 false regulars st2
    let st4 := assignPattern cfg d Cell.C 1 false regulars st3
    let remaining := regulars.filter (fun s => !(isAssignedF st4.sched d st4.ids s.id))
    let remainingSorted := remaining.mergeSort
      (fun a b => abjCount cfg st4.sched a.id ≤ abjCount cfg st4.sched b.id)
    let sch5 := remainingSorted.foldl (p4Remaining cfg d) st4.sched
    ⟨sch5, st4.rng⟩

/-- phase4_RegularWeekday of ShiftGenerator. -/
def phase4_RegularWeekday (cfg : GenCfg) (st : GSt) : GSt :=
  let regulars := cfg.staff.filter (fun s => s.shiftType == StaffShiftType.regular)
  (daysList cfg.daysInMonth).foldl (phase4Day cfg regulars) st

/-- One day of phase4_5_LateShiftCoverage: both coverage flags are
computed first, then the infant fix, then the toddler fix against the
updated schedule. -/
def p45Day (cfg : GenCfg) (sch : GSched) (d : Nat) : GSched :=
  if gIsHoliday cfg d || gIsSaturday cfg d then sch
  else
    let lateShifts := [Cell.D, Cell.E, Cell.J]
    let hasInfant := cfg.staff.any (fun s =>
      s.role == StaffRole.infant && lateShifts.contains (cellAt sch d s.id))
    let hasToddler := cfg.staff.any (fun s =>
      s.role == StaffRole.toddler && lateShifts.contains (cellAt sch d s.id))
    let sch1 :=
      if hasInfant then sch
      else
        match cfg.staff.find? (fun s =>
          s.role == StaffRole.infant &&
            (cellAt sch d s.id == Cell.B || cellAt sch d s.id == Cell.C) &&
            !(hasIncompatibleConflict cfg sch d s.id Cell.D)) with
        | some c => setShift cfg sch d c.id Cell.D
        | none => sch
    if hasToddler then sch1
    else
      match cfg.staff.find? (fun s =>
        s.role == StaffRole.toddler &&
          (cellAt sch1 d s.id == Cell.B || cellAt sch1 d s.id == Cell.C) &&
          !(hasIncompatibleConflict cfg sch1 d s.id Cell.D)) with
      | some c => setShift cfg sch1 d c.id Cell.D
      | none => sch1

/-- phase4_5_LateShiftCoverage of ShiftGenerator. -/
def phase4_5_LateShiftCoverage (cfg : GenCfg) (st : GSt) : GSt :=
  { st with sched := (daysList cfg.daysInMonth).foldl (p45Day cfg) st.sched }

/-- phase5_PartTime of ShiftGenerator: a no-op, part-time cells are
seeded in the constructor and never auto-generated. -/
def phase5_PartTime (_cfg : GenCfg) (st : GSt) : GSt := st

/-- The SHIFT_PATTERNS table of types.ts restricted to what the
generator reads: band code and weekday minimum headcount. -/
def SHIFT_PATTERNS : List (Cell × Nat) :=
  [(Cell.A, 2), (Cell.B, 1), (Cell.C, 1), (Cell.D, 1), (Cell.E, 1), (Cell.J, 2)]

/-- The candidate loop of the phase-6 per-pattern minimum top-up. -/
def p6PatternLoop (cfg : GenCfg) (day : Nat) (pid : Cell) (minCount : Nat) :
    List Staff → GSched → Nat → GSched
  | [], sch, _ => sch
  | s :: rest, sch, currentCount =>
    if currentCount ≥ minCount then sch
    else if p4Allowed cfg sch day true pid s then
      p6PatternLoop cfg day pid minCount rest (setShift cfg sch day s.id pid)
        (currentCount + 1)
    else p6PatternLoop cfg day pid minCount rest sch currentCount

/-- One pattern of the phase-6 per-pattern minimum top-up. -/
def p6PatternStep (cfg : GenCfg) (day : Nat) (sch : GSched) (pm : Cell × Nat) : GSched :=
  let currentCount := gCountPattern cfg sch day pm.1
  if currentCount < pm.2 then
    let candidates := cfg.staff.filter (fun s =>
      let shift := cellAt sch day s.id
      shift != Cell.emp && shift != Cell.kyu && shift != Cell.fu && shift != Cell.yu &&
        shift != pm.1 && s.shiftType != StaffShiftType.cooking &&
        s.shiftType != StaffShiftType.partTime && s.position != StaffPosition.director)
    let sorted := candidates.mergeSort (fun a b =>
      countTotalShifts cfg sch a.id pm.1 ≤ countTotalShifts cfg sch b.id pm.1)
    p6PatternLoop cfg day pm.1 pm.2 sorted sch currentCount
  else sch

/-- availableStaff of the phase-6 total-headcount loop. -/
def availableStaff (cfg : GenCfg) (sch : GSched) (day : Nat) : List Staff :=
  cfg.staff.filter (fun s =>
    cellAt sch day s.id == Cell.emp && s.shiftType != StaffShiftType.cooking &&
      s.shiftType != StaffShiftType.partTime && s.position != StaffPosition.director)

/-- The band chosen by one iteration of the phase-6 total-headcount
loop: the base mid band, stepped to C on an early-limit conflict, then
stepped once more on an incompatibility conflict. -/
def p6FillShift (cfg : GenCfg) (sch : GSched) (day sid : Nat) : Cell :=
  let shift0 := if isEarlyShiftLimitExceeded cfg sch sid then Cell.C else Cell.B
  if hasIncompatibleConflict cfg sch day sid shift0 then
    if shift0 == Cell.B then Cell.C
    else if shift0 == Cell.C then Cell.D
    else shift0
  else shift0

/-- The phase-6 total-headcount while loop, with explicit fuel; each
iteration assigns a previously-empty cell, so the available staff
strictly shrink and staff-list length is always enough fuel. -/
def minTotalLoop (cfg : GenCfg) (day : Nat) : Nat → GSched → GSched
  | 0, sch => sch
  | fuel + 1, sch =>
    if gCountWorkingStaff cfg sch day ≥ 8 then sch
    else
      match (availableStaff cfg sch day).mergeSort
          (fun a b => abjCount cfg sch a.id ≤ abjCount cfg sch b.id) with
      | [] => sch
      | candidate :: _ =>
        minTotalLoop cfg day fuel
          (setShift cfg sch day candidate.id (p6FillShift cfg sch day candidate.id))

/-- phase6_MinCountAdjustment of ShiftGenerator. -/
def phase6_MinCountAdjustment (cfg : GenCfg) (st : GSt) : GSt :=
  let sched2 := (daysList cfg.daysInMonth).foldl
    (fun sch d =>
      if gIsHoliday cfg d || gIsSaturday cfg d then sch
      else
        let sch1 := SHIFT_PATTERNS.foldl (fun sch pm => p6PatternStep cfg d sch pm) sch
        minTotalLoop cfg d cfg.staff.length sch1)
    st.sched
  { st with sched := sched2 }

/-- The reassignment loop of phase 7: the first B-band staff member
passing the gate is moved into the shortage band by a direct write
that bypasses setShift. -/
def p7TryReassignLoop (cfg : GenCfg) (day : Nat) (pattern : Cell) :
    List Staff → GSched → GSched × Bool
  | [], sch => (sch, false)
  | s :: rest, sch =>
    if p4Allowed cfg sch day true pattern s then (updateCell sch day s.id pattern, true)
    else p7TryReassignLoop cfg day pattern rest sch

/-- tryReassignBStaff of phase7_ChiefBackup. -/
def p7TryReassignBStaff (cfg : GenCfg) (day : Nat) (sch : GSched) (pattern : Cell)
    (minCount : Nat) : GSched × Bool :=
  if gCountPattern cfg sch day pattern ≥ minCount then (sch, false)
  else
    let bStaff := cfg.staff.filter (fun s =>
      s.position != StaffPosition.director && s.position != StaffPosition.chief &&
        s.shiftType == StaffShiftType.regular && cellAt sch day s.id == Cell.B)
    let sorted := bStaff.mergeSort (fun a b =>
      countTotalShifts cfg sch a.id pattern ≤ countTotalShifts cfg sch b.id pattern)
    p7TryReassignLoop cfg day pattern sorted sch

/-- assignIfShort of phase7_ChiefBackup; the boolean reports that the
chief was assigned (the continue of the source). -/
def p7AssignIfShort (cfg : GenCfg) (day : Nat) (chief : Staff) (sch : GSched)
    (backupCount : Nat) (pattern : Cell) (minCount : Nat) : GSched × Nat × Bool :=
  let r := p7TryReassignBStaff cfg day sch pattern minCount
  if r.2 then (r.1, backupCount, false)
  else if gCountPattern cfg r.1 day pattern < minCount then
    if pattern == Cell.A &&
        (let prevDay := gGetPreviousWorkDay cfg day
         decide (prevDay > 0) && cellAt r.1 prevDay chief.id == Cell.J) then
      (r.1, backupCount, false)
    else (setShift cfg r.1 day chief.id pattern, backupCount + 1, true)
  else (r.1, backupCount, false)

/-- The priority chain of phase 7 (A 2, J 2, D 1, E 1, C 1 with
short-circuit on a chief assignment), as a fold mirroring the
sequential checks of the source. -/
def p7Prio (cfg : GenCfg) (day : Nat) (chief : Staff) :
    List (Cell × Nat) → GSched × Nat → GSched × Nat × Bool
  | [], p => (p.1, p.2, false)
  | pm :: rest, p =>
    let r := p7AssignIfShort cfg day chief p.1 p.2 pm.1 pm.2
    if r.2.2 then r
    else p7Prio cfg day chief rest (r.1, r.2.1)

/-- One day of phase7_ChiefBackup. -/
def phase7Day (cfg : GenCfg) (chief : Staff) (p : GSched × Nat) (d : Nat) : GSched × Nat :=
  if gIsHoliday cfg d then (setShift cfg p.1 d chief.id Cell.kyu, p.2)
  else if gIsSaturday cfg d then p
  else if p.2 ≥ 8 then
    (if cellAt p.1 d chief.id == Cell.emp then setShift cfg p.1 d chief.id Cell.kyu else p.1, p.2)
  else
    let r := p7Prio cfg d chief
      [(Cell.A, 2), (Cell.J, 2), (Cell.D, 1), (Cell.E, 1), (Cell.C, 1)] p
    if r.2.2 then (r.1, r.2.1)
    else if gCountWorkingStaff cfg r.1 d < 8 then
      (setShift cfg r.1 d chief.id Cell.B, r.2.1 + 1)
    else
      (if cellAt r.1 d chief.id == Cell.emp then setShift cfg r.1 d chief.id Cell.kyu else r.1,
        r.2.1)

/-- phase7_ChiefBackup of ShiftGenerator. -/
def phase7_ChiefBackup (cfg : GenCfg) (st : GSt) : GSt :=
  match cfg.staff.find? (fun s => s.position == StaffPosition.chief) with
  | none => st
  | some chief =>
    let res := (daysList cfg.daysInMonth).foldl (phase7Day cfg chief) (st.sched, 0)
    { st with sched := res.1 }

/-- phase8_CompensatoryOff of ShiftGenerator: a no-op, the logic moved
into phase 3. -/
def phase8_CompensatoryOff (_cfg : GenCfg) (st : GSt) : GSt := st

/-- The shared per-day body of phase9_FillEmpty and finalSafetyFill
(the two functions have identical loop bodies in the source): every
empty non-part-time cell of the day is written to regular day off by a
direct write. -/
def fillDay (cfg : GenCfg) (d : Nat) (sch : GSched) : GSched :=
  cfg.staff.foldl
    (fun sch2 s =>
      if cellAt sch2 d s.id == Cell.emp && s.shiftType != StaffShiftType.partTime then
        updateCell sch2 d s.id Cell.kyu
      else sch2) sch

/-- phase9_FillEmpty of ShiftGenerator: every empty non-part-time cell
is written to regular day off directly. -/
def phase9_FillEmpty (cfg : GenCfg) (st : GSt) : GSt :=
  let sched2 := (daysList cfg.daysInMonth).foldl (fun sch d => fillDay cfg d sch) st.sched
  { st with sched := sched2 }

/-- The per-staff body of phase10_Validation: the three adjacency
repairs against a snapshot of the previous and current cells. -/
def phase10Staff (cfg : GenCfg) (d prevDay : Nat) (sch : GSched) (s : Staff) : GSched :=
  if s.shiftType == StaffShiftType.partTime then sch
  else
    let prevShift := cellAt sch prevDay s.id
    let currShift := cellAt sch d s.id
    let sch1 :=
      if prevShift == Cell.J && currShift == Cell.A then setShift cfg sch d s.id Cell.B
      else sch
    let sch2 :=
      if prevShift == Cell.A && currShift == Cell.A then setShift cfg sch1 d s.id Cell.B
      else sch1
    if prevShift == Cell.J && currShift == Cell.J then setShift cfg sch2 d s.id Cell.B
    else sch2

/-- One day of phase10_Validation. -/
def phase10Day (cfg : GenCfg) (sch : GSched) (d : Nat) : GSched :=
  if gIsHoliday cfg d then sch
  else
    let prevDay := gGetPreviousWorkDay cfg d
    if prevDay = 0 then sch
    else cfg.staff.foldl (phase10Staff cfg d prevDay) sch

/-- phase10_Validation of ShiftGenerator. -/
def phase10_Validation (cfg : GenCfg) (st : GSt) : GSt :=
  { st with sched := (daysList cfg.daysInMonth).foldl (phase10Day cfg) st.sched }

/-- finalSafetyFill of ShiftGenerator: identical structure to phase 9,
run once more after all phases. -/
def finalSafetyFill (cfg : GenCfg) (sch : GSched) : GSched :=
  (daysList cfg.daysInMonth).foldl (fun sch1 d => fillDay cfg d sch1) sch

/-- The only change the fill phases make to a cell: an empty cell may
become the regular day off code, everything else is untouched. -/
def ProgOnlyFill (sch schNew : GSched) : Prop :=
  ∀ d s, cellAt schNew d s = cellAt sch d s ∨
    (cellAt sch d s = Cell.emp ∧ cellAt schNew d s = Cell.kyu)

/-- The protection invariant of the run: every cell of the target
month whose caller-supplied value is paid leave or compensatory day
off, for a staff id present on the roster, still holds that value. -/
def Protects (cfg : GenCfg) (cur : GSched) (sch : GSched) : Prop :=
  ∀ d sid, 1 ≤ d → d ≤ cfg.daysInMonth → (∃ s ∈ cfg.staff, s.id = sid) →
    (cellAt cur d sid = Cell.yu ∨ cellAt cur d sid = Cell.fu) →
    cellAt sch d sid = cellAt cur d sid

/-- The three forbidden adjacent pairs of phase10_Validation: latest
then earliest, earliest twice, latest twice. -/
def badPair (a b : Cell) : Prop :=
  (a = Cell.J ∧ b = Cell.A) ∨ (a = Cell.A ∧ b = Cell.A) ∨ (a = Cell.J ∧ b = Cell.J)

/-- generate of ShiftGenerator: constructor seeding, the ordered
phases, then the final safety fill. -/
def generate (cfg : GenCfg) (currentSchedule : GSched) : GSched :=
  let st0 : GSt := ⟨initSchedule cfg currentSchedule, 0⟩
  let st :=
    phase10_Validation cfg
      (phase9_FillEmpty cfg
        (phase8_CompensatoryOff cfg
          (phase7_ChiefBackup cfg
            (phase6_MinCountAdjustment cfg
              (phase5_PartTime cfg
                (phase4_5_LateShiftCoverage cfg
                  (phase4_RegularWeekday cfg
                    (phase3_Saturday cfg
                      (phase2_5_Cooking cfg
                        (phase2_Chief cfg
                          (phase1_Director cfg st0)))))))))))
  finalSafetyFill cfg st.sched

end Gen

/-! Concrete inputs used by the witnesses and counterexamples. -/

/-- A plain regular caregiver with a given id and incompatibility
list. -/
def mkStaff (i : Nat) (inc : List Nat) : Staff :=
  ⟨i, "s", StaffPosition.caregiver, StaffShiftType.regular, StaffRole.free, inc,
    none, false, true⟩

/-- Default settings for the examples. -/
def exSettings : Settings := ⟨3, Cell.B⟩

/-- Day-1 schedule with three staff on the earliest band. -/
def exSchedA3 : Nat → DayMap :=
  fun day => if day = 1 then [(1, Cell.A), (2, Cell.A), (3, Cell.A)] else []

/-- Context with three regular staff all on the earliest band on
day 1. -/
def exCtx5 : Checker.ConstraintContext :=
  ⟨exSchedA3, [mkStaff 1 [], mkStaff 2 [], mkStaff 3 []], [], exSettings, 2023, 2⟩

/-- Day-1 schedule with staff 1 on the earliest band. -/
def exSchedOneA : Nat → DayMap :=
  fun day => if day = 1 then [(1, Cell.A)] else []

/-- Context where staff 1 lists staff 2 as incompatible and holds the
earliest band on day 1, while the list of staff 2 is empty. -/
def exCtx6 : Checker.ConstraintContext :=
  ⟨exSchedOneA, [mkStaff 1 [2], mkStaff 2 []], [], exSettings, 2023, 2⟩

/-- Day-1 schedule with staff 1 on the regular day off code. -/
def exSchedKyu : Nat → DayMap :=
  fun day => if day = 1 then [(1, Cell.kyu)] else []

/-- Context with a single regular staff member on the regular day off
code on day 1. -/
def exCtx4 : Checker.ConstraintContext :=
  ⟨exSchedKyu, [mkStaff 1 []], [], exSettings, 2023, 2⟩

/-- Day-1 schedule where staff 1 and staff 2 share the day-off code. -/
def exSchedKyu2 : Nat → DayMap :=
  fun day => if day = 1 then [(1, Cell.kyu), (2, Cell.kyu)] else []

/-- Context where staff 1 lists staff 2 as incompatible and staff 2
holds the day-off code on day 1. -/
def exCtx9 : Checker.ConstraintContext :=
  ⟨exSchedKyu2, [mkStaff 1 [2], mkStaff 2 []], [], exSettings, 2023, 2⟩

/-- Day-1 schedule with exactly two staff on the earliest band. -/
def exSchedA2 : Nat → DayMap :=
  fun day => if day = 1 then [(1, Cell.A), (2, Cell.A)] else []

/-- Context with two regular staff on the earliest band on day 1 (the
band is exactly at its floor). -/
def exCtx10 : Checker.ConstraintContext :=
  ⟨exSchedA2, [mkStaff 1 [], mkStaff 2 []], [], exSettings, 2023, 2⟩

/-- Day-1 schedule with staff 2 on the earliest band. -/
def exSchedTwoA : Nat → DayMap :=
  fun day => if day = 1 then [(2, Cell.A)] else []

/-- Context where staff 1 lists staff 2 as incompatible and staff 2
holds the earliest band on day 1. -/
def exCtx6b : Checker.ConstraintContext :=
  ⟨exSchedTwoA, [mkStaff 1 [2], mkStaff 2 []], [], exSettings, 2023, 2⟩

/-- One regular staff member for the generator examples. -/
def exGenStaff : Staff := mkStaff 1 []

/-- A small generator configuration: one regular staff member,
February 2023, no holidays, identity shuffle. -/
def exGenCfg : Gen.GenCfg :=
  ⟨[exGenStaff], [], exSettings, 2023, 2, fun _ _ => none, fun _ l => l⟩

/-- A caller-supplied schedule with a paid-leave entry on day 3 and a
compensatory-day-off entry on day 10 for staff 1. -/
def exGenCur : Gen.GSched := [((3, 1), Cell.yu), ((10, 1), Cell.fu)]

/-! ### Helper lemmas about the constraint checker -/

namespace Checker

theorem mem_checkConstraints {ctx : ConstraintContext} {day sid : Nat} {c : Cell}
    {v : ConstraintViolation} :
    v ∈ checkConstraints ctx day sid c ↔
      checkJToAViolation ctx day sid c = some v ∨
      checkAToJViolation ctx day sid c = some v ∨
      checkConsecutiveViolation ctx day sid c = some v ∨
      checkIncompatibleViolation ctx day sid c = some v ∨
      checkWeeklyAJLimitViolation ctx day sid c = some v ∨
      checkMinCountViolation ctx day sid c = some v ∨
      checkEarlyLimitViolation ctx day sid c = some v ∨
      checkFairnessViolation ctx day sid c = some v := by
  simp [checkConstraints, List.mem_append, Option.mem_toList, Option.mem_def]

theorem checkJToA_some {ctx : ConstraintContext} {day sid : Nat} {c : Cell}
    {v : ConstraintViolation} (h : checkJToAViolation ctx day sid c = some v) :
    v.type = VType.hard ∧ v.code = ConstraintCode.J_TO_A := by
  simp only [checkJToAViolation] at h
  repeat' split at h
  all_goals first
    | exact Option.noConfusion h
    | (cases h; exact ⟨rfl, rfl⟩)
    | (cases h; constructor <;> (try split) <;> simp)

theorem checkAToJ_some {ctx : ConstraintContext} {day sid : Nat} {c : Cell}
    {v : ConstraintViolation} (h : checkAToJViolation ctx day sid c = some v) :
    v.type = VType.hard ∧ v.code = ConstraintCode.J_TO_A := by
  simp only [checkAToJViolation] at h
  repeat' split at h
  all_goals first
    | exact Option.noConfusion h
    | (cases h; exact ⟨rfl, rfl⟩)
    | (cases h; constructor <;> (try split) <;> simp)
    | simp_all

theorem checkConsecutive_some {ctx : ConstraintContext} {day sid : Nat} {c : Cell}
    {v : ConstraintViolation} (h : checkConsecutiveViolation ctx day sid c = some v) :
    v.type = VType.hard ∧
      (v.code = ConstraintCode.CONSECUTIVE_A ∨ v.code = ConstraintCode.CONSECUTIVE_J) := by
  simp only [checkConsecutiveViolation] at h
  repeat' split at h
  all_goals first
    | exact Option.noConfusion h
    | (cases h; exact ⟨rfl, rfl⟩)
    | (cases h; constructor <;> (try split) <;> simp)
    | simp_all

theorem checkIncompatible_some {ctx : ConstraintContext} {day sid : Nat} {c : Cell}
    {v : ConstraintViolation} (h : checkIncompatibleViolation ctx day sid c = some v) :
    v.type = VType.hard ∧ v.code = ConstraintCode.INCOMPATIBLE := by
  simp only [checkIncompatibleViolation] at h
  repeat' split at h
  all_goals first
    | exact Option.noConfusion h
    | (cases h; exact ⟨rfl, rfl⟩)
    | (cases h; constructor <;> (try split) <;> simp)
    | simp_all

theorem checkWeekly_some {ctx : ConstraintContext} {day sid : Nat} {c : Cell}
    {v : ConstraintViolation} (h : checkWeeklyAJLimitViolation ctx day sid c = some v) :
    v.type = VType.hard ∧ v.code = ConstraintCode.WEEKLY_AJ_LIMIT := by
  simp only [checkWeeklyAJLimitViolation] at h
  repeat' split at h
  all_goals first
    | exact Option.noConfusion h
    | (cases h; exact ⟨rfl, rfl⟩)
    | (cases h; constructor <;> (try split) <;> simp)
    | simp_all

theorem checkMinCount_some {ctx : ConstraintContext} {day sid : Nat} {c : Cell}
    {v : ConstraintViolation} (h : checkMinCountViolation ctx day sid c = some v) :
    (getShift ctx day sid = Cell.A ∨ getShift ctx day sid = Cell.J) ∧
      countDayPattern ctx day (getShift ctx day sid) ≤ 2 ∧
      v.type = VType.hard ∧
      (v.code = ConstraintCode.MIN_COUNT_A ∨ v.code = ConstraintCode.MIN_COUNT_J) := by
  simp only [checkMinCountViolation] at h
  repeat' split at h
  all_goals first
    | exact Option.noConfusion h
    | (cases h; exact ⟨rfl, rfl⟩)
    | (cases h; constructor <;> (try split) <;> simp)
    | simp_all
  all_goals (rw [← h]; constructor <;> (try split) <;> simp)

theorem checkEarly_some {ctx : ConstraintContext} {day sid : Nat} {c : Cell}
    {v : ConstraintViolation} (h : checkEarlyLimitViolation ctx day sid c = some v) :
    v.type = VType.soft ∧ v.code = ConstraintCode.EARLY_LIMIT := by
  simp only [checkEarlyLimitViolation] at h
  repeat' split at h
  all_goals first
    | exact Option.noConfusion h
    | (cases h; exact ⟨rfl, rfl⟩)
    | (cases h; constructor <;> (try split) <;> simp)
    | simp_all

theorem checkFairness_some {ctx : ConstraintContext} {day sid : Nat} {c : Cell}
    {v : ConstraintViolation} (h : checkFairnessViolation ctx day sid c = some v) :
    v.type = VType.soft ∧
      (v.code = ConstraintCode.FAIRNESS_A ∨ v.code = ConstraintCode.FAIRNESS_J) := by
  simp only [checkFairnessViolation] at h
  repeat' split at h
  all_goals first
    | exact Option.noConfusion h
    | (cases h; exact ⟨rfl, rfl⟩)
    | (cases h; constructor <;> (try split) <;> simp)
    | simp_all

theorem checkMinCount_pos {ctx : ConstraintContext} {day sid : Nat} (c : Cell)
    (h1 : getShift ctx day sid = Cell.A ∨ getShift ctx day sid = Cell.J)
    (h2 : countDayPattern ctx day (getShift ctx day sid) ≤ 2) :
    ∃ v, checkMinCountViolation ctx day sid c = some v ∧ v.type = VType.hard ∧
      v.code = (if getShift ctx day sid = Cell.A then ConstraintCode.MIN_COUNT_A
        else ConstraintCode.MIN_COUNT_J) := by
  unfold checkMinCountViolation
  rcases h1 with h1 | h1 <;> simp_all

theorem checkIncompatible_pos {ctx : ConstraintContext} {day aId bId : Nat} {a : Staff}
    {c : Cell}
    (hfind : ctx.staff.find? (fun s => s.id = aId) = some a)
    (hmem : bId ∈ a.incompatibleWith)
    (hcell : cellLookup (ctx.schedule day) bId = some c) :
    ∃ v, checkIncompatibleViolation ctx day aId c = some v ∧ v.type = VType.hard ∧
      v.code = ConstraintCode.INCOMPATIBLE := by
  have hne : a.incompatibleWith.isEmpty = false := by
    cases hl : a.incompatibleWith with
    | nil => rw [hl] at hmem; simp at hmem
    | cons x xs => simp
  have hany : a.incompatibleWith.any
      (fun incompatibleId =>
        decide (cellLookup (ctx.schedule day) incompatibleId = some c)) = true :=
    List.any_eq_true.mpr ⟨bId, hmem, by simp [hcell]⟩
  unfold checkIncompatibleViolation
  rw [hfind]
  simp [hne, hany]


/-! ### Claims about the incompatibility and minimum-count checks -/

/-- C9: the incompatibility check applies to every candidate cell
value, not only work bands: when the queried staff member (as resolved
by find on the roster) lists some id whose raw cell on that day equals
the candidate code, including the off and leave codes, checkConstraints
includes a hard INCOMPATIBLE violation. -/
theorem claim_C9_incompatible_any_code (ctx : ConstraintContext) (day : Nat) (a : Staff)
    (bId : Nat) (c : Cell)
    (hfind : ctx.staff.find? (fun s => s.id = a.id) = some a)
    (hmem : bId ∈ a.incompatibleWith)
    (hcell : cellLookup (ctx.schedule day) bId = some c) :
    ∃ v ∈ checkConstraints ctx day a.id c,
      v.type = VType.hard ∧ v.code = ConstraintCode.INCOMPATIBLE := by
  obtain ⟨v, hv, ht, hc⟩ := checkIncompatible_pos hfind hmem hcell
  exact ⟨v, mem_checkConstraints.mpr (Or.inr (Or.inr (Or.inr (Or.inl hv)))), ht, hc⟩

/-- Witness for C9: staff 1 lists staff 2, staff 2 holds the day-off
code on day 1, and proposing the day-off code for staff 1 is reported
as a hard incompatibility. -/
theorem claim_C9_witness :
    exCtx9.staff.find? (fun s => s.id = (mkStaff 1 [2]).id) = some (mkStaff 1 [2]) ∧
    2 ∈ (mkStaff 1 [2]).incompatibleWith ∧
    cellLookup (exCtx9.schedule 1) 2 = some Cell.kyu ∧
    ∃ v ∈ checkConstraints exCtx9 1 (mkStaff 1 [2]).id Cell.kyu,
      v.type = VType.hard ∧ v.code = ConstraintCode.INCOMPATIBLE :=
  ⟨by decide, by decide, by decide,
    claim_C9_incompatible_any_code exCtx9 1 (mkStaff 1 [2]) 2 Cell.kyu
      (by decide) (by decide) (by decide)⟩

/-- C10: the minimum-count check ignores the candidate shift: when the
current same-day assignment is an extreme band at a count of at most
two, checkConstraints reports the hard minimum-count violation for
every candidate shift, including re-proposing the current shift. -/
theorem claim_C10_min_count_ignores_candidate (ctx : ConstraintContext) (day sid : Nat)
    (h1 : getShift ctx day sid = Cell.A ∨ getShift ctx day sid = Cell.J)
    (h2 : countDayPattern ctx day (getShift ctx day sid) ≤ 2) :
    ∀ c : Cell, ∃ v ∈ checkConstraints ctx day sid c,
      v.type = VType.hard ∧
        v.code = (if getShift ctx day sid = Cell.A then ConstraintCode.MIN_COUNT_A
          else ConstraintCode.MIN_COUNT_J) := by
  intro c
  obtain ⟨v, hv, ht, hc⟩ := checkMinCount_pos c h1 h2
  exact ⟨v,
    mem_checkConstraints.mpr (Or.inr (Or.inr (Or.inr (Or.inr (Or.inr (Or.inl hv)))))),
    ht, hc⟩

/-- Witness for C10: staff 1 is on the earliest band at its floor count
of two, and re-proposing the earliest band itself still reports the
hard minimum-count violation. -/
theorem claim_C10_witness :
    (getShift exCtx10 1 1 = Cell.A ∨ getShift exCtx10 1 1 = Cell.J) ∧
    countDayPattern exCtx10 1 (getShift exCtx10 1 1) ≤ 2 ∧
    ∃ v ∈ checkConstraints exCtx10 1 1 Cell.A,
      v.type = VType.hard ∧
        v.code = (if getShift exCtx10 1 1 = Cell.A then ConstraintCode.MIN_COUNT_A
          else ConstraintCode.MIN_COUNT_J) :=
  ⟨by decide, by decide,
    claim_C10_min_count_ignores_candidate exCtx10 1 1 (by decide) (by decide) Cell.A⟩

/-- Counterexample to C5 as stated: three staff hold the earliest band
on day 1, so reassigning staff 1 would drop the count to the floor of
2 (the claim says this must be blocked: the band currently has at most
3 assigned staff), yet checkConstraints reports no minimum-count
violation for the move to another band. -/
theorem claim_C5_counterexample :
    getShift exCtx5 1 1 = Cell.A ∧
    countDayPattern exCtx5 1 Cell.A = 3 ∧
    ((checkConstraints exCtx5 1 1 Cell.B).filter
      (fun v => v.code == ConstraintCode.MIN_COUNT_A ||
        v.code == ConstraintCode.MIN_COUNT_J)) = [] := by
  decide

/-- C5 as amended: when the current same-day assignment is the earliest
or latest band, checkConstraints reports a hard minimum-count violation
exactly when that band currently has at most 2 assigned staff, that is,
when reassigning the staff member would drop the count strictly below
the floor of 2. -/
theorem claim_C5_min_count_threshold (ctx : ConstraintContext) (day sid : Nat) (c : Cell)
    (h1 : getShift ctx day sid = Cell.A ∨ getShift ctx day sid = Cell.J) :
    countDayPattern ctx day (getShift ctx day sid) ≤ 2 ↔
      ∃ v ∈ checkConstraints ctx day sid c,
        v.type = VType.hard ∧
          (v.code = ConstraintCode.MIN_COUNT_A ∨ v.code = ConstraintCode.MIN_COUNT_J) := by
  constructor
  · intro h2
    obtain ⟨v, hv, ht, hc⟩ := checkMinCount_pos c h1 h2
    refine ⟨v,
      mem_checkConstraints.mpr (Or.inr (Or.inr (Or.inr (Or.inr (Or.inr (Or.inl hv)))))),
      ht, ?_⟩
    split at hc
    · exact Or.inl hc
    · exact Or.inr hc
  · rintro ⟨v, hv, ht, hc⟩
    rcases mem_checkConstraints.mp hv with h | h | h | h | h | h | h | h
    · have h2 := (checkJToA_some h).2; rcases hc with hc | hc <;> simp [h2] at hc
    · have h2 := (checkAToJ_some h).2; rcases hc with hc | hc <;> simp [h2] at hc
    · rcases (checkConsecutive_some h).2 with h2 | h2 <;>
        rcases hc with hc | hc <;> simp [h2] at hc
    · have h2 := (checkIncompatible_some h).2; rcases hc with hc | hc <;> simp [h2] at hc
    · have h2 := (checkWeekly_some h).2; rcases hc with hc | hc <;> simp [h2] at hc
    · exact (checkMinCount_some h).2.1
    · have h2 := (checkEarly_some h).2; rcases hc with hc | hc <;> simp [h2] at hc
    · rcases (checkFairness_some h).2 with h2 | h2 <;>
        rcases hc with hc | hc <;> simp [h2] at hc

/-- Witness for the amended C5: with the earliest band at exactly its
floor of 2, the violation is reported. -/
theorem claim_C5_witness :
    (getShift exCtx10 1 2 = Cell.A ∨ getShift exCtx10 1 2 = Cell.J) ∧
    (countDayPattern exCtx10 1 (getShift exCtx10 1 2) ≤ 2 ↔
      ∃ v ∈ checkConstraints exCtx10 1 2 Cell.B,
        v.type = VType.hard ∧
          (v.code = ConstraintCode.MIN_COUNT_A ∨ v.code = ConstraintCode.MIN_COUNT_J)) :=
  ⟨by decide, claim_C5_min_count_threshold exCtx10 1 2 Cell.B (by decide)⟩

/-- The incompatibility check returns nothing when the queried staff
member holds no incompatibility entries. -/
theorem checkIncompatible_none_of_empty {ctx : ConstraintContext} {day : Nat} {b : Staff}
    {x : Cell}
    (hfind : ctx.staff.find? (fun s => s.id = b.id) = some b)
    (hemp : b.incompatibleWith = []) :
    checkIncompatibleViolation ctx day b.id x = none := by
  unfold checkIncompatibleViolation
  rw [hfind]
  simp [hemp]

/-- Counterexample to C6 as stated: staff 1 lists staff 2 as
incompatible and staff 2 (who lists nobody) holds the earliest band,
but querying staff 2 about the band held by nobody else... -/
theorem claim_C6_counterexample :
    mkStaff 1 [2] ∈ exCtx6.staff ∧
    2 ∈ (mkStaff 1 [2]).incompatibleWith ∧
    getShift exCtx6 1 1 = Cell.A ∧
    ((checkConstraints exCtx6 1 2 Cell.A).filter
      (fun v => v.code == ConstraintCode.INCOMPATIBLE)) = [] := by
  decide

/-- C6 as amended: the incompatibility check is one-sided: it consults
only the queried staff member. Querying the staff member who holds the
incompatibility entry reports the hard violation when the listed staff
member is on the candidate band; querying a staff member whose own
entry list is empty never reports an incompatibility, even when
another staff member lists them and holds that band. -/
theorem claim_C6_incompatibility_one_sided (ctx : ConstraintContext) (day : Nat) :
    (∀ (a : Staff) (bId : Nat) (x : Cell),
      ctx.staff.find? (fun s => s.id = a.id) = some a →
      bId ∈ a.incompatibleWith →
      cellLookup (ctx.schedule day) bId = some x →
      ∃ v ∈ checkConstraints ctx day a.id x,
        v.type = VType.hard ∧ v.code = ConstraintCode.INCOMPATIBLE) ∧
    (∀ (b : Staff) (x : Cell),
      ctx.staff.find? (fun s => s.id = b.id) = some b →
      b.incompatibleWith = [] →
      ∀ v ∈ checkConstraints ctx day b.id x, v.code ≠ ConstraintCode.INCOMPATIBLE) := by
  constructor
  · intro a bId x hfind hmem hcell
    obtain ⟨v, hv, ht, hc⟩ := checkIncompatible_pos hfind hmem hcell
    exact ⟨v, mem_checkConstraints.mpr (Or.inr (Or.inr (Or.inr (Or.inl hv)))), ht, hc⟩
  · intro b x hfind hemp v hv
    rcases mem_checkConstraints.mp hv with h | h | h | h | h | h | h | h
    · have h2 := (checkJToA_some h).2; simp [h2]
    · have h2 := (checkAToJ_some h).2; simp [h2]
    · rcases (checkConsecutive_some h).2 with h2 | h2 <;> simp [h2]
    · rw [checkIncompatible_none_of_empty hfind hemp] at h; exact Option.noConfusion h
    · have h2 := (checkWeekly_some h).2; simp [h2]
    · rcases (checkMinCount_some h).2.2.2 with h2 | h2 <;> simp [h2]
    · have h2 := (checkEarly_some h).2; simp [h2]
    · rcases (checkFairness_some h).2 with h2 | h2 <;> simp [h2]

/-- Witness for the amended C6: in a context where staff 1 lists
staff 2 and staff 2 holds the earliest band, querying staff 1 reports
the hard incompatibility and querying staff 2 (empty own list) cannot
report one. -/
theorem claim_C6_witness :
    (∃ v ∈ checkConstraints exCtx6b 1 1 Cell.A,
      v.type = VType.hard ∧ v.code = ConstraintCode.INCOMPATIBLE) ∧
    (∀ v ∈ checkConstraints exCtx6b 1 2 Cell.A, v.code ≠ ConstraintCode.INCOMPATIBLE) :=
  ⟨(claim_C6_incompatibility_one_sided exCtx6b 1).1 (mkStaff 1 [2]) 2 Cell.A
      (by decide) (by decide) (by decide),
    (claim_C6_incompatibility_one_sided exCtx6b 1).2 (mkStaff 2 []) Cell.A
      (by decide) (by decide)⟩


/-! ### Claims about candidate evaluation and swap search -/

/-- The comparator of evaluateCandidates is transitive. -/
theorem candidateLe_trans (a b c : CandidateEvaluation)
    (hab : candidateLe a b = true) (hbc : candidateLe b c = true) :
    candidateLe a c = true := by
  simp only [candidateLe] at *
  cases ha : a.isAssignable <;> cases hb : b.isAssignable <;> cases hc : c.isAssignable <;>
    simp_all <;> omega

/-- The comparator of evaluateCandidates is total. -/
theorem candidateLe_total (a b : CandidateEvaluation) :
    (candidateLe a b || candidateLe b a) = true := by
  simp only [candidateLe]
  cases ha : a.isAssignable <;> cases hb : b.isAssignable <;> simp_all <;> omega

/-- Counterexample to C4 as stated: a staff member on the regular
day-off code is not excluded by evaluateCandidates (the source skips
only paid leave and compensatory day off). -/
theorem claim_C4_counterexample :
    getShift exCtx4 1 1 = Cell.kyu ∧
    ∃ e ∈ evaluateCandidates exCtx4 1 Cell.A,
      e.staffId = 1 ∧ e.currentShift = Cell.kyu := by
  refine ⟨by decide, evalOf exCtx4 1 Cell.A (mkStaff 1 []), ?_, by decide, by decide⟩
  simp only [evaluateCandidates, List.mem_mergeSort]
  decide

/-- C4 as amended: evaluateCandidates considers exactly the staff of
category regular or backup, excluding those already on the target
shift and those on paid leave or compensatory day off (staff on the
regular day-off code are evaluated); every remaining candidate is
evaluated with checkConstraints (the evalOf record), and the result is
ordered by the comparator: assignable staff first, ascending violation
count. -/
theorem claim_C4_evaluateCandidates_spec (ctx : ConstraintContext) (day : Nat)
    (target : Cell) :
    (∀ e, e ∈ evaluateCandidates ctx day target ↔
      ∃ s ∈ ctx.staff,
        (s.shiftType = StaffShiftType.regular ∨ s.shiftType = StaffShiftType.backup) ∧
        getShift ctx day s.id ≠ target ∧
        getShift ctx day s.id ≠ Cell.yu ∧ getShift ctx day s.id ≠ Cell.fu ∧
        e = evalOf ctx day target s) ∧
    (evaluateCandidates ctx day target).Pairwise (fun a b => candidateLe a b = true) := by
  constructor
  · intro e
    simp only [evaluateCandidates, List.mem_mergeSort, List.mem_filterMap, List.mem_filter]
    constructor
    · rintro ⟨s, ⟨hs, hp⟩, hf⟩
      refine ⟨s, hs, ?_, ?_⟩
      · revert hp
        simp
      · split at hf
        · exact Option.noConfusion hf
        · split at hf
          · exact Option.noConfusion hf
          · rename_i h1 h2
            refine ⟨h1, ?_, ?_, (Option.some.inj hf).symm⟩
            · intro hy; exact h2 (Or.inl hy)
            · intro hfu; exact h2 (Or.inr hfu)
    · rintro ⟨s, hs, hp, h1, h2, h3, rfl⟩
      refine ⟨s, ⟨hs, by simp [hp]⟩, ?_⟩
      rw [if_neg h1, if_neg (by intro h; rcases h with h | h; exact h2 h; exact h3 h)]
  · exact List.sorted_mergeSort candidateLe_trans candidateLe_total _

/-- C8: findSwapSuggestions consults no random or ambient state: two
contexts with identical components produce the identical ordered
suggestion list. -/
theorem claim_C8_findSwapSuggestions_deterministic (ctx1 ctx2 : ConstraintContext)
    (day : Nat) (p : Cell)
    (hsched : ctx1.schedule = ctx2.schedule) (hstaff : ctx1.staff = ctx2.staff)
    (hhol : ctx1.holidays = ctx2.holidays) (hset : ctx1.settings = ctx2.settings)
    (hyear : ctx1.year = ctx2.year) (hmonth : ctx1.month = ctx2.month) :
    findSwapSuggestions ctx1 day p = findSwapSuggestions ctx2 day p := by
  cases ctx1
  cases ctx2
  simp_all

/-- Witness for C8: repeated invocation on the same concrete context
returns the same list. -/
theorem claim_C8_witness :
    findSwapSuggestions exCtx10 1 Cell.A = findSwapSuggestions exCtx10 1 Cell.A :=
  claim_C8_findSwapSuggestions_deterministic exCtx10 exCtx10 1 Cell.A
    rfl rfl rfl rfl rfl rfl

end Checker

namespace Gen

/-! ### Basic lemmas about the generator schedule -/

/-- Reading after a raw write. -/
theorem cellAt_updateCell (sch : GSched) (day sid d2 s2 : Nat) (v : Cell) :
    cellAt (updateCell sch day sid v) d2 s2 =
      if day = d2 ∧ sid = s2 then v else cellAt sch d2 s2 := rfl

/-- setShift on an empty cell always writes. -/
theorem setShift_of_emp (cfg : GenCfg) {sch : GSched} {day sid : Nat}
    (h : cellAt sch day sid = Cell.emp) (v : Cell) :
    setShift cfg sch day sid v = updateCell sch day sid v := by
  unfold setShift
  rw [h]
  simp

/-- The phase-6 fill band is never the empty cell. -/
theorem p6FillShift_ne_emp (cfg : GenCfg) (sch : GSched) (day sid : Nat) :
    p6FillShift cfg sch day sid ≠ Cell.emp := by
  unfold p6FillShift
  repeat' split
  all_goals (try simp)
  all_goals (split <;> simp)

/-- Filtering with a pointwise-stronger predicate yields at most as
many elements. -/
theorem length_filter_le_of_imp {α} {p q : α → Bool} (himp : ∀ a, q a = true → p a = true) :
    ∀ l : List α, (l.filter q).length ≤ (l.filter p).length := by
  intro l
  induction l with
  | nil => simp
  | cons a t ih =>
    by_cases hq : q a = true
    · have hp := himp a hq
      simp [List.filter_cons, hp, hq]
      omega
    · cases hp : p a <;>
        simp [List.filter_cons, hp, Bool.eq_false_iff.mpr hq] <;> omega

/-- Filtering with a pointwise-stronger predicate that newly rejects a
present element yields strictly fewer elements. -/
theorem length_filter_lt {α} {p q : α → Bool} (himp : ∀ a, q a = true → p a = true)
    {x : α} {l : List α} (hx : x ∈ l) (hpx : p x = true) (hqx : q x = false) :
    (l.filter q).length < (l.filter p).length := by
  induction l with
  | nil => cases hx
  | cons a t ih =>
    rcases List.mem_cons.mp hx with rfl | hxt
    · have hle := length_filter_le_of_imp himp t
      simp [List.filter_cons, hpx, hqx]
      omega
    · have hih := ih hxt
      by_cases hq : q a = true
      · have hp := himp a hq
        simp [List.filter_cons, hp, hq]
        omega
      · cases hp : p a <;>
          simp [List.filter_cons, hp, Bool.eq_false_iff.mpr hq] <;> omega

/-- After assigning a non-empty band to an available staff member, the
available staff strictly shrink. -/
theorem availableStaff_shrinks (cfg : GenCfg) (sch : GSched) (day : Nat) {c : Staff}
    (hc : c ∈ availableStaff cfg sch day) {v : Cell} (hv : v ≠ Cell.emp) :
    (availableStaff cfg (updateCell sch day c.id v) day).length <
      (availableStaff cfg sch day).length := by
  unfold availableStaff at *
  have hmem := (List.mem_filter.mp hc).1
  have hpred := (List.mem_filter.mp hc).2
  refine length_filter_lt ?_ hmem hpred ?_
  · intro a hq
    by_cases hid : c.id = a.id
    · exfalso
      have h1 := (Bool.and_eq_true _ _).mp ((Bool.and_eq_true _ _).mp
        ((Bool.and_eq_true _ _).mp hq).1).1
      rw [cellAt_updateCell] at h1
      simp [hid] at h1
      exact hv h1.1
    · have h1 := (Bool.and_eq_true _ _).mp hq
      have h2 := (Bool.and_eq_true _ _).mp h1.1
      have h3 := (Bool.and_eq_true _ _).mp h2.1
      rw [cellAt_updateCell] at h3
      simp [hid] at h3
      simp [h3.1, h3.2, h2.2, h1.2]
  · rw [Bool.eq_false_iff]
    intro hq
    have := (Bool.and_eq_true _ _).mp ((Bool.and_eq_true _ _).mp
      ((Bool.and_eq_true _ _).mp hq).1).1
    rw [cellAt_updateCell] at this
    simp at this
    exact hv this.1

/-- When no staff is available the total-headcount loop is the
identity for every fuel. -/
theorem minTotalLoop_of_empty (cfg : GenCfg) (day : Nat) (sch : GSched)
    (h : availableStaff cfg sch day = []) :
    ∀ fuel, minTotalLoop cfg day fuel sch = sch := by
  intro fuel
  cases fuel with
  | zero => rfl
  | succ f =>
    simp only [minTotalLoop, h, List.mergeSort_nil]
    split <;> rfl

/-- Fuel beyond the number of available staff is never consumed by the
phase-6 total-headcount loop. -/
theorem minTotalLoop_fuel_stable (cfg : GenCfg) (day : Nat) :
    ∀ fuel1 fuel2 sch, (availableStaff cfg sch day).length ≤ fuel1 →
      (availableStaff cfg sch day).length ≤ fuel2 →
      minTotalLoop cfg day fuel1 sch = minTotalLoop cfg day fuel2 sch := by
  intro fuel1
  induction fuel1 with
  | zero =>
    intro fuel2 sch h1 h2
    have he : availableStaff cfg sch day = [] :=
      List.eq_nil_of_length_eq_zero (Nat.le_zero.mp h1)
    rw [minTotalLoop_of_empty cfg day sch he, minTotalLoop_of_empty cfg day sch he]
  | succ f1 ih =>
    intro fuel2 sch h1 h2
    cases fuel2 with
    | zero =>
      have he : availableStaff cfg sch day = [] :=
        List.eq_nil_of_length_eq_zero (Nat.le_zero.mp h2)
      rw [minTotalLoop_of_empty cfg day sch he, minTotalLoop_of_empty cfg day sch he]
    | succ f2 =>
      by_cases hw : gCountWorkingStaff cfg sch day ≥ 8
      · simp only [minTotalLoop, if_pos hw]
      · cases hms : (availableStaff cfg sch day).mergeSort
            (fun a b => abjCount cfg sch a.id ≤ abjCount cfg sch b.id) with
        | nil =>
          simp only [minTotalLoop, if_neg hw, hms]
        | cons c rest =>
          simp only [minTotalLoop, if_neg hw, hms]
          have hc0 : c ∈ (availableStaff cfg sch day).mergeSort
              (fun a b => abjCount cfg sch a.id ≤ abjCount cfg sch b.id) := by
            rw [hms]
            exact List.mem_cons_self c rest
          have hc : c ∈ availableStaff cfg sch day := List.mem_mergeSort.mp hc0
          have hemp : cellAt sch day c.id = Cell.emp := by
            have := (List.mem_filter.mp hc).2
            have h3 := (Bool.and_eq_true _ _).mp ((Bool.and_eq_true _ _).mp
              ((Bool.and_eq_true _ _).mp this).1).1
            simpa using h3.1
          rw [setShift_of_emp cfg hemp]
          have hlt := availableStaff_shrinks cfg sch day hc
            (p6FillShift_ne_emp cfg sch day c.id)
          exact ih f2 _ (by omega) (by omega)

/-- C7: the phase-8 minimum-headcount top-up loop (the total-headcount
while loop of phase6_MinCountAdjustment) always terminates: each
iteration assigns a previously-unassigned staff member, so candidates
strictly shrink, and the roster-length fuel used by the generator is
already past the fixpoint: any extra fuel changes nothing.  The
generator itself is a total Lean function, so generate terminates and
never raises on any input. -/
theorem claim_C7_min_total_loop_fixpoint (cfg : GenCfg) (day : Nat) (sch : GSched)
    (extra : Nat) :
    minTotalLoop cfg day (cfg.staff.length + extra) sch =
      minTotalLoop cfg day cfg.staff.length sch := by
  have hle : (availableStaff cfg sch day).length ≤ cfg.staff.length :=
    Nat.le_trans (List.length_filter_le _ _) (Nat.le_refl _)
  exact minTotalLoop_fuel_stable cfg day _ _ sch (by omega) hle


/-! ### Completeness of the final safety fill -/

theorem progOnlyFill_refl (sch : GSched) : ProgOnlyFill sch sch :=
  fun _ _ => Or.inl rfl

theorem progOnlyFill_trans {s1 s2 s3 : GSched}
    (h12 : ProgOnlyFill s1 s2) (h23 : ProgOnlyFill s2 s3) : ProgOnlyFill s1 s3 := by
  intro d s
  rcases h23 d s with h | ⟨he, hk⟩
  · rcases h12 d s with h2 | ⟨he2, hk2⟩
    · exact Or.inl (h.trans h2)
    · exact Or.inr ⟨he2, h.trans hk2⟩
  · rcases h12 d s with h2 | ⟨he2, hk2⟩
    · exact Or.inr ⟨h2 ▸ he, hk⟩
    · rw [hk2] at he
      exact absurd he (by simp)

/-- A non-empty cell survives a fill-only transformation. -/
theorem nonemp_of_prog {sch schNew : GSched} (h : ProgOnlyFill sch schNew)
    {d s : Nat} (hne : cellAt sch d s ≠ Cell.emp) : cellAt schNew d s ≠ Cell.emp := by
  rcases h d s with h2 | ⟨he, _⟩
  · rw [h2]; exact hne
  · exact absurd he hne

/-- One fill step changes cells only from empty to the day-off code. -/
theorem fillStep_prog (d : Nat) (sch : GSched) (s : Staff) :
    ProgOnlyFill sch
      (if cellAt sch d s.id == Cell.emp && s.shiftType != StaffShiftType.partTime then
        updateCell sch d s.id Cell.kyu
      else sch) := by
  intro d0 s0
  split
  · rename_i hcond
    rw [cellAt_updateCell]
    split
    · rename_i hds
      rcases hds with ⟨rfl, rfl⟩
      have := (Bool.and_eq_true _ _).mp hcond
      exact Or.inr ⟨by simpa using this.1, rfl⟩
    · exact Or.inl rfl
  · exact Or.inl rfl

/-- The staff fold inside fillDay changes cells only from empty to the
day-off code. -/
theorem fillInner_prog (d : Nat) (l : List Staff) (sch : GSched) :
    ProgOnlyFill sch
      (l.foldl
        (fun sch2 s =>
          if cellAt sch2 d s.id == Cell.emp && s.shiftType != StaffShiftType.partTime then
            updateCell sch2 d s.id Cell.kyu
          else sch2) sch) := by
  induction l generalizing sch with
  | nil => exact progOnlyFill_refl sch
  | cons a t ih =>
    rw [List.foldl_cons]
    exact progOnlyFill_trans (fillStep_prog d sch a) (ih _)

/-- fillDay changes cells only from empty to the day-off code. -/
theorem fillDay_prog (cfg : GenCfg) (d : Nat) (sch : GSched) :
    ProgOnlyFill sch (fillDay cfg d sch) :=
  fillInner_prog d cfg.staff sch

/-- The fold of fillDay over any day list changes cells only from
empty to the day-off code. -/
theorem fillFold_prog (cfg : GenCfg) (l : List Nat) (sch : GSched) :
    ProgOnlyFill sch (l.foldl (fun sch1 d => fillDay cfg d sch1) sch) := by
  induction l generalizing sch with
  | nil => exact progOnlyFill_refl sch
  | cons a t ih =>
    rw [List.foldl_cons]
    exact progOnlyFill_trans (fillDay_prog cfg a sch) (ih _)

/-- After fillDay, every non-part-time cell of that day whose staff
member is in the processed list is non-empty. -/
theorem fillInner_complete (d : Nat) (l : List Staff) (sch : GSched) :
    ∀ s ∈ l, s.shiftType ≠ StaffShiftType.partTime →
      cellAt
        (l.foldl
          (fun sch2 s =>
            if cellAt sch2 d s.id == Cell.emp && s.shiftType != StaffShiftType.partTime then
              updateCell sch2 d s.id Cell.kyu
            else sch2) sch) d s.id ≠ Cell.emp := by
  induction l generalizing sch with
  | nil => intro s hs; cases hs
  | cons a t ih =>
    intro s hs hpt
    rw [List.foldl_cons]
    rcases List.mem_cons.mp hs with rfl | hst
    · apply nonemp_of_prog (fillInner_prog d t _)
      split
      · rw [cellAt_updateCell]
        simp
      · rename_i hcond
        rw [Bool.and_eq_true] at hcond
        intro hemp
        apply hcond
        constructor
        · simpa using hemp
        · simpa using hpt
    · exact ih _ s hst hpt

/-- After fillDay, every non-part-time roster cell of that day is
non-empty. -/
theorem fillDay_complete (cfg : GenCfg) (d : Nat) (sch : GSched) :
    ∀ s ∈ cfg.staff, s.shiftType ≠ StaffShiftType.partTime →
      cellAt (fillDay cfg d sch) d s.id ≠ Cell.emp :=
  fillInner_complete d cfg.staff sch

/-- After folding fillDay over a day list, every non-part-time roster
cell of every listed day is non-empty. -/
theorem fillFold_complete (cfg : GenCfg) (l : List Nat) (sch : GSched) :
    ∀ d ∈ l, ∀ s ∈ cfg.staff, s.shiftType ≠ StaffShiftType.partTime →
      cellAt (l.foldl (fun sch1 d2 => fillDay cfg d2 sch1) sch) d s.id ≠ Cell.emp := by
  induction l generalizing sch with
  | nil => intro d hd; cases hd
  | cons a t ih =>
    intro d hd s hs hpt
    rw [List.foldl_cons]
    rcases List.mem_cons.mp hd with rfl | hdt
    · exact nonemp_of_prog (fillFold_prog cfg t _) (fillDay_complete cfg d sch s hs hpt)
    · exact ih _ d hdt s hs hpt

/-- finalSafetyFill leaves no empty non-part-time roster cell on any
day of the month. -/
theorem finalSafetyFill_complete (cfg : GenCfg) (sch : GSched) :
    ∀ d ∈ daysList cfg.daysInMonth, ∀ s ∈ cfg.staff,
      s.shiftType ≠ StaffShiftType.partTime →
      cellAt (finalSafetyFill cfg sch) d s.id ≠ Cell.emp := by
  unfold finalSafetyFill
  exact fillFold_complete cfg (daysList cfg.daysInMonth) sch

/-- C2: completeness of the generated schedule: for every input, every
staff member whose shiftType is not part_time has a non-empty cell
(one of the six work bands or one of the three off codes) on every day
of the target month of the schedule returned by generate. -/
theorem claim_C2_completeness (cfg : GenCfg) (cur : GSched) (d : Nat) (s : Staff)
    (hd1 : 1 ≤ d) (hd2 : d ≤ cfg.daysInMonth) (hs : s ∈ cfg.staff)
    (hpt : s.shiftType ≠ StaffShiftType.partTime) :
    cellAt (generate cfg cur) d s.id ∈
      [Cell.A, Cell.B, Cell.C, Cell.D, Cell.E, Cell.J, Cell.fu, Cell.yu, Cell.kyu] := by
  have hmem : d ∈ daysList cfg.daysInMonth := by
    simp only [daysList, List.mem_map, List.mem_range]
    exact ⟨d - 1, by omega, by omega⟩
  have hne : cellAt (generate cfg cur) d s.id ≠ Cell.emp := by
    unfold generate
    exact finalSafetyFill_complete cfg _ d hmem s hs hpt
  cases hcell : cellAt (generate cfg cur) d s.id <;> simp_all

/-- Witness for C2: the single regular staff member of the example
configuration has a non-empty cell on day 5. -/
theorem claim_C2_witness :
    1 ≤ 5 ∧ 5 ≤ exGenCfg.daysInMonth ∧ exGenStaff ∈ exGenCfg.staff ∧
    exGenStaff.shiftType ≠ StaffShiftType.partTime ∧
    cellAt (generate exGenCfg exGenCur) 5 exGenStaff.id ∈
      [Cell.A, Cell.B, Cell.C, Cell.D, Cell.E, Cell.J, Cell.fu, Cell.yu, Cell.kyu] :=
  ⟨by decide, by decide, by decide, by decide,
    claim_C2_completeness exGenCfg exGenCur 5 exGenStaff
      (by decide) (by decide) (by decide) (by decide)⟩

/-! ### The adjacency invariant of phase 10 -/

theorem setShift_nonPT (cfg : GenCfg) {sid : Nat} {s : Staff}
    (hfind : cfg.findStaff sid = some s) (hpt : s.shiftType ≠ StaffShiftType.partTime)
    (sch : GSched) (day : Nat) (v : Cell)
    (h1 : cellAt sch day sid ≠ Cell.yu) (h2 : cellAt sch day sid ≠ Cell.fu) :
    setShift cfg sch day sid v = updateCell sch day sid v := by
  have hb : (s.shiftType == StaffShiftType.partTime) = false :=
    beq_eq_false_iff_ne.mpr hpt
  unfold setShift
  rw [if_neg (by tauto)]
  simp [hfind, hb]

theorem phase10Staff_good (cfg : GenCfg) {d0 p : Nat} (hplt : p < d0) (sch : GSched)
    {s : Staff} (hpt : s.shiftType ≠ StaffShiftType.partTime)
    (hfind : cfg.findStaff s.id = some s) :
    ¬ badPair (cellAt (phase10Staff cfg d0 p sch s) p s.id)
      (cellAt (phase10Staff cfg d0 p sch s) d0 s.id) := by
  have hne : ¬ (d0 = p ∧ s.id = s.id) := fun h => absurd h.1.symm (Nat.ne_of_lt hplt)
  unfold phase10Staff
  rw [if_neg (by simp [hpt])]
  cases hprev : cellAt sch p s.id <;> cases hcurr : cellAt sch d0 s.id <;>
    simp only [hprev, hcurr]
  all_goals try simp
  all_goals try (simp [badPair, hprev, hcurr]; done)
  all_goals
    rw [setShift_nonPT cfg hfind hpt sch d0 Cell.B (by rw [hcurr]; simp)
      (by rw [hcurr]; simp)]
    simp [cellAt_updateCell, hne, hprev, badPair]


theorem cellAt_setShift_ne {cfg : GenCfg} {sch : GSched} {day sid : Nat} {v : Cell}
    {d2 s2 : Nat} (h : ¬(day = d2 ∧ sid = s2)) :
    cellAt (setShift cfg sch day sid v) d2 s2 = cellAt sch d2 s2 := by
  simp only [setShift]
  split
  · rfl
  · split
    · rfl
    · rw [cellAt_updateCell, if_neg h]

theorem phase10Staff_local (cfg : GenCfg) (d0 p : Nat) (sch : GSched) (s : Staff)
    (d2 s2 : Nat) (h : ¬(d0 = d2 ∧ s.id = s2)) :
    cellAt (phase10Staff cfg d0 p sch s) d2 s2 = cellAt sch d2 s2 := by
  unfold phase10Staff
  split
  · rfl
  · simp only [apply_ite (fun sch0 => cellAt sch0 d2 s2), cellAt_setShift_ne h, ite_self]

theorem phase10Inner_local (cfg : GenCfg) (d0 p : Nat) :
    ∀ (l : List Staff) (sch : GSched) (d2 s2 : Nat),
      (d2 ≠ d0 ∨ s2 ∉ l.map Staff.id) →
      cellAt (l.foldl (phase10Staff cfg d0 p) sch) d2 s2 = cellAt sch d2 s2 := by
  intro l
  induction l with
  | nil => intro sch d2 s2 _; rfl
  | cons a t ih =>
    intro sch d2 s2 h
    rw [List.foldl_cons]
    have h2 : ¬(d0 = d2 ∧ a.id = s2) := by
      rcases h with h | h
      · exact fun hc => h hc.1.symm
      · exact fun hc => h (by rw [← hc.2]; simp)
    have h3 : d2 ≠ d0 ∨ s2 ∉ t.map Staff.id := by
      rcases h with h | h
      · exact Or.inl h
      · exact Or.inr (fun hc => h (by simp [hc]))
    rw [ih _ d2 s2 h3, phase10Staff_local cfg d0 p sch a d2 s2 h2]

theorem find_id_of_nodup :
    ∀ (l : List Staff), (l.map Staff.id).Nodup → ∀ s ∈ l,
      l.find? (fun x => x.id = s.id) = some s := by
  intro l
  induction l with
  | nil => intro _ s hs; cases hs
  | cons a t ih =>
    intro hnd s hs
    have hnd2 := hnd
    rw [List.map_cons, List.nodup_cons] at hnd2
    rcases List.mem_cons.mp hs with rfl | hst
    · rw [List.find?_cons_of_pos _ (by simp)]
    · have hne : a.id ≠ s.id := by
        intro he
        exact hnd2.1 (he ▸ List.mem_map.mpr ⟨s, hst, rfl⟩)
      rw [List.find?_cons_of_neg _ (by simp [hne])]
      exact ih hnd2.2 s hst

theorem findStaff_of_nodup (cfg : GenCfg) (hnd : (cfg.staff.map Staff.id).Nodup)
    {s : Staff} (hs : s ∈ cfg.staff) : cfg.findStaff s.id = some s :=
  find_id_of_nodup cfg.staff hnd s hs

theorem gPrevWorkAux_le (cfg : GenCfg) : ∀ k, gPrevWorkAux cfg k ≤ k := by
  intro k
  induction k with
  | zero => simp [gPrevWorkAux]
  | succ n ih =>
    unfold gPrevWorkAux
    split
    · exact Nat.le_refl _
    · omega

theorem gPrevWork_lt (cfg : GenCfg) (d : Nat) (h : gGetPreviousWorkDay cfg d ≠ 0) :
    gGetPreviousWorkDay cfg d < d := by
  unfold gGetPreviousWorkDay at *
  have := gPrevWorkAux_le cfg (d - 1)
  omega

theorem phase10Inner_good (cfg : GenCfg) {d0 p : Nat} (hplt : p < d0)
    (hndAll : (cfg.staff.map Staff.id).Nodup) :
    ∀ (l : List Staff) (sch : GSched), (l.map Staff.id).Nodup →
      (∀ x ∈ l, x ∈ cfg.staff) →
      ∀ s ∈ l, s.shiftType ≠ StaffShiftType.partTime →
        ¬ badPair (cellAt (l.foldl (phase10Staff cfg d0 p) sch) p s.id)
          (cellAt (l.foldl (phase10Staff cfg d0 p) sch) d0 s.id) := by
  intro l
  induction l with
  | nil => intro sch _ _ s hs; cases hs
  | cons a t ih =>
    intro sch hnd hsub s hs hpt
    have hnd2 := hnd
    rw [List.map_cons, List.nodup_cons] at hnd2
    rw [List.foldl_cons]
    rcases List.mem_cons.mp hs with rfl | hst
    · have hfind := findStaff_of_nodup cfg hndAll (hsub s (List.mem_cons_self s t))
      have hgood := phase10Staff_good cfg hplt sch hpt hfind
      rw [phase10Inner_local cfg d0 p t _ p s.id (Or.inl (Nat.ne_of_lt hplt)),
        phase10Inner_local cfg d0 p t _ d0 s.id (Or.inr hnd2.1)]
      exact hgood
    · exact ih _ hnd2.2 (fun x hx => hsub x (List.mem_cons_of_mem a hx)) s hst hpt

theorem phase10Day_local (cfg : GenCfg) (sch : GSched) (d0 d2 s2 : Nat) (h : d2 ≠ d0) :
    cellAt (phase10Day cfg sch d0) d2 s2 = cellAt sch d2 s2 := by
  simp only [phase10Day]
  split
  · rfl
  · split
    · rfl
    · exact phase10Inner_local cfg d0 _ cfg.staff sch d2 s2 (Or.inl h)

theorem phase10Day_good (cfg : GenCfg) (hndAll : (cfg.staff.map Staff.id).Nodup)
    (sch : GSched) (d0 : Nat)
    (hhol : gIsHoliday cfg d0 = false) (hp : gGetPreviousWorkDay cfg d0 ≠ 0) :
    ∀ s ∈ cfg.staff, s.shiftType ≠ StaffShiftType.partTime →
      ¬ badPair (cellAt (phase10Day cfg sch d0) (gGetPreviousWorkDay cfg d0) s.id)
        (cellAt (phase10Day cfg sch d0) d0 s.id) := by
  intro s hs hpt
  simp only [phase10Day]
  rw [if_neg (by simp [hhol]), if_neg hp]
  exact phase10Inner_good cfg (gPrevWork_lt cfg d0 hp) hndAll cfg.staff sch hndAll
    (fun x hx => hx) s hs hpt

theorem phase10Fold_local (cfg : GenCfg) :
    ∀ (l : List Nat) (sch : GSched) (d2 s2 : Nat), d2 ∉ l →
      cellAt (l.foldl (phase10Day cfg) sch) d2 s2 = cellAt sch d2 s2 := by
  intro l
  induction l with
  | nil => intro sch d2 s2 _; rfl
  | cons a t ih =>
    intro sch d2 s2 h
    rw [List.foldl_cons, ih _ d2 s2 (fun hc => h (List.mem_cons_of_mem a hc)),
      phase10Day_local cfg sch a d2 s2 (fun hc => h (hc ▸ List.mem_cons_self a t))]

theorem phase10Fold_good (cfg : GenCfg) (hndAll : (cfg.staff.map Staff.id).Nodup) :
    ∀ (l : List Nat) (sch : GSched), l.Pairwise (· < ·) →
      ∀ d ∈ l, gIsHoliday cfg d = false → gGetPreviousWorkDay cfg d ≠ 0 →
        ∀ s ∈ cfg.staff, s.shiftType ≠ StaffShiftType.partTime →
          ¬ badPair
            (cellAt (l.foldl (phase10Day cfg) sch) (gGetPreviousWorkDay cfg d) s.id)
            (cellAt (l.foldl (phase10Day cfg) sch) d s.id) := by
  intro l
  induction l with
  | nil => intro sch _ d hd; cases hd
  | cons a t ih =>
    intro sch hpw d hd hhol hp s hs hpt
    have hpw2 := List.pairwise_cons.mp hpw
    rw [List.foldl_cons]
    rcases List.mem_cons.mp hd with rfl | hdt
    · have hplt := gPrevWork_lt cfg d hp
      have hda : d ∉ t := fun hmem => absurd (hpw2.1 d hmem) (by omega)
      have hpnot : gGetPreviousWorkDay cfg d ∉ t := fun hmem =>
        absurd (hpw2.1 _ hmem) (by omega)
      rw [phase10Fold_local cfg t _ _ s.id hpnot, phase10Fold_local cfg t _ d s.id hda]
      exact phase10Day_good cfg hndAll sch d hhol hp s hs hpt
    · exact ih _ hpw2.2 d hdt hhol hp s hs hpt

theorem daysList_pairwise (n : Nat) : (daysList n).Pairwise (· < ·) := by
  unfold daysList
  rw [List.pairwise_map]
  exact (List.pairwise_lt_range n).imp (by omega)

theorem badPair_preserved {sch schNew : GSched} (h : ProgOnlyFill sch schNew)
    {p d sid : Nat}
    (hgood : ¬ badPair (cellAt sch p sid) (cellAt sch d sid)) :
    ¬ badPair (cellAt schNew p sid) (cellAt schNew d sid) := by
  intro hbad
  rcases h p sid with hp | ⟨_, hp⟩ <;> rcases h d sid with hd | ⟨_, hd⟩ <;>
    rw [hp, hd] at hbad
  · exact hgood hbad
  · simp [badPair] at hbad
  · simp [badPair] at hbad
  · simp [badPair] at hbad

/-- C3: adjacency invariant of the generated schedule: in the schedule
returned by generate, for every staff member who is not part-time and
every pair of temporally adjacent work days (a non-holiday,
non-Sunday day and its previous work day), the (previous, current)
pair is never (J, A), (A, A) or (J, J).  Staff ids are assumed to be
identities (pairwise distinct), per the data model of the spec. -/
theorem claim_C3_adjacency_invariant (cfg : GenCfg) (cur : GSched)
    (hnd : (cfg.staff.map Staff.id).Nodup) (d : Nat)
    (hd1 : 1 ≤ d) (hd2 : d ≤ cfg.daysInMonth)
    (hhol : gIsHoliday cfg d = false) (hp : gGetPreviousWorkDay cfg d ≠ 0)
    (s : Staff) (hs : s ∈ cfg.staff) (hpt : s.shiftType ≠ StaffShiftType.partTime) :
    ¬ badPair (cellAt (generate cfg cur) (gGetPreviousWorkDay cfg d) s.id)
      (cellAt (generate cfg cur) d s.id) := by
  have hmem : d ∈ daysList cfg.daysInMonth := by
    simp only [daysList, List.mem_map, List.mem_range]
    exact ⟨d - 1, by omega, by omega⟩
  unfold generate finalSafetyFill
  refine badPair_preserved (fillFold_prog cfg _ _) ?_
  simp only [phase10_Validation]
  exact phase10Fold_good cfg hnd _ _ (daysList_pairwise _) d hmem hhol hp s hs hpt

/-- Witness for C3: in the example run, day 2 follows work day 1 and
the produced pair is not forbidden. -/
theorem claim_C3_witness :
    (exGenCfg.staff.map Staff.id).Nodup ∧ 1 ≤ 2 ∧ 2 ≤ exGenCfg.daysInMonth ∧
    gIsHoliday exGenCfg 2 = false ∧ gGetPreviousWorkDay exGenCfg 2 ≠ 0 ∧
    exGenStaff ∈ exGenCfg.staff ∧ exGenStaff.shiftType ≠ StaffShiftType.partTime ∧
    ¬ badPair
      (cellAt (generate exGenCfg exGenCur) (gGetPreviousWorkDay exGenCfg 2) exGenStaff.id)
      (cellAt (generate exGenCfg exGenCur) 2 exGenStaff.id) :=
  ⟨by decide, by decide, by decide, by decide, by decide, by decide, by decide,
    claim_C3_adjacency_invariant exGenCfg exGenCur (by decide) 2 (by decide) (by decide)
      (by decide) (by decide) exGenStaff (by decide) (by decide)⟩

/-! ### Protection of manual leave entries (claim C1) -/


theorem setShift_protects {cfg : GenCfg} {cur sch : GSched} {day sid : Nat} {v : Cell}
    (h : Protects cfg cur sch) : Protects cfg cur (setShift cfg sch day sid v) := by
  intro d s hd1 hd2 hids hcur
  have hold := h d s hd1 hd2 hids hcur
  by_cases hc : day = d ∧ sid = s
  · obtain ⟨rfl, rfl⟩ := hc
    simp only [setShift]
    rw [if_pos (hold ▸ hcur)]
    exact hold
  · rw [cellAt_setShift_ne hc]
    exact hold

theorem updateCell_protects_of_ne {cfg : GenCfg} {cur sch : GSched} {day sid : Nat}
    {v : Cell} (hcell : cellAt sch day sid ≠ Cell.yu ∧ cellAt sch day sid ≠ Cell.fu)
    (h : Protects cfg cur sch) : Protects cfg cur (updateCell sch day sid v) := by
  intro d s hd1 hd2 hids hcur
  have hold := h d s hd1 hd2 hids hcur
  rw [cellAt_updateCell]
  split
  · rename_i hc
    obtain ⟨rfl, rfl⟩ := hc
    exfalso
    rcases hcur with hy | hf
    · exact hcell.1 (hold.trans hy)
    · exact hcell.2 (hold.trans hf)
  · exact hold

theorem foldl_pres {σ : Type _} {α : Type _} (Q : σ → Prop) (f : σ → α → σ)
    (hf : ∀ s a, Q s → Q (f s a)) : ∀ (l : List α) (s : σ), Q s → Q (l.foldl f s) := by
  intro l
  induction l with
  | nil => intro s h; exact h
  | cons a t ih =>
    intro s h
    rw [List.foldl_cons]
    exact ih _ (hf s a h)

theorem seedCell_protected (s : Staff) {e : Cell} (he : e = Cell.yu ∨ e = Cell.fu) :
    seedCell s e = e := by
  rcases he with rfl | rfl <;> simp [seedCell]

theorem initInner (cfg : GenCfg) (cur : GSched) (d0 : Nat) :
    ∀ (l : List Staff) (sch : GSched) (sid : Nat),
      (cellAt cur d0 sid = Cell.yu ∨ cellAt cur d0 sid = Cell.fu) →
      ((∃ s ∈ l, s.id = sid) ∨ cellAt sch d0 sid = cellAt cur d0 sid) →
      cellAt
        (l.foldl (fun sch2 s => updateCell sch2 d0 s.id (seedCell s (cellAt cur d0 s.id)))
          sch) d0 sid = cellAt cur d0 sid := by
  intro l
  induction l with
  | nil =>
    intro sch sid hcur h
    rcases h with ⟨s, hs, _⟩ | h
    · cases hs
    · exact h
  | cons a t ih =>
    intro sch sid hcur h
    rw [List.foldl_cons]
    apply ih
    · exact hcur
    · by_cases ha : a.id = sid
      · right
        rw [cellAt_updateCell, if_pos ⟨rfl, ha⟩, ha, seedCell_protected a (ha ▸ hcur)]
      · rcases h with ⟨s, hs, hid⟩ | h
        · rcases List.mem_cons.mp hs with rfl | hst
          · exact absurd hid ha
          · exact Or.inl ⟨s, hst, hid⟩
        · right
          rw [cellAt_updateCell, if_neg (fun hc => ha hc.2)]
          exact h

theorem initInner_local (cfg : GenCfg) (cur : GSched) (d0 : Nat) :
    ∀ (l : List Staff) (sch : GSched) (d sid : Nat), d ≠ d0 →
      cellAt
        (l.foldl (fun sch2 s => updateCell sch2 d0 s.id (seedCell s (cellAt cur d0 s.id)))
          sch) d sid = cellAt sch d sid := by
  intro l
  induction l with
  | nil => intro sch d sid _; rfl
  | cons a t ih =>
    intro sch d sid h
    rw [List.foldl_cons, ih _ d sid h, cellAt_updateCell, if_neg (fun hc => h hc.1.symm)]

theorem initOuter (cfg : GenCfg) (cur : GSched) (d sid : Nat)
    (hids : ∃ s ∈ cfg.staff, s.id = sid)
    (hcur : cellAt cur d sid = Cell.yu ∨ cellAt cur d sid = Cell.fu) :
    ∀ (l : List Nat) (sch : GSched),
      (d ∈ l ∨ cellAt sch d sid = cellAt cur d sid) →
      cellAt
        (l.foldl
          (fun sch d2 =>
            cfg.staff.foldl
              (fun sch2 s => updateCell sch2 d2 s.id (seedCell s (cellAt cur d2 s.id))) sch)
          sch) d sid = cellAt cur d sid := by
  intro l
  induction l with
  | nil =>
    intro sch h
    rcases h with h | h
    · cases h
    · exact h
  | cons a t ih =>
    intro sch h
    rw [List.foldl_cons]
    apply ih
    by_cases had : a = d
    · subst had
      right
      exact initInner cfg cur a cfg.staff sch sid hcur (Or.inl hids)
    · rcases h with h | h
      · rcases List.mem_cons.mp h with rfl | hdt
        · exact absurd rfl had
        · exact Or.inl hdt
      · right
        rw [initInner_local cfg cur a cfg.staff sch d sid (fun hc => had hc.symm)]
        exact h

theorem initSchedule_protects (cfg : GenCfg) (cur : GSched) :
    Protects cfg cur (initSchedule cfg cur) := by
  intro d sid hd1 hd2 hids hcur
  unfold initSchedule
  apply initOuter cfg cur d sid hids hcur
  left
  simp only [daysList, List.mem_map, List.mem_range]
  exact ⟨d - 1, by omega, by omega⟩


theorem phase1_protects (cfg : GenCfg) (cur : GSched) {st : GSt}
    (h : Protects cfg cur st.sched) :
    Protects cfg cur (phase1_Director cfg st).sched := by
  unfold phase1_Director
  split
  · exact h
  · exact foldl_pres (fun sch => Protects cfg cur sch) _
      (fun sch d hq => setShift_protects hq) _ _ h

theorem phase2_protects (cfg : GenCfg) (cur : GSched) {st : GSt}
    (h : Protects cfg cur st.sched) :
    Protects cfg cur (phase2_Chief cfg st).sched := h

theorem phase2_5_protects (cfg : GenCfg) (cur : GSched) {st : GSt}
    (h : Protects cfg cur st.sched) :
    Protects cfg cur (phase2_5_Cooking cfg st).sched := by
  unfold phase2_5_Cooking
  dsimp only
  split
  · exact h
  · refine foldl_pres (fun (p : GSched × Nat) => Protects cfg cur p.1) _ ?_ _ _ h
    intro p d hq
    dsimp only
    split
    · exact foldl_pres (fun sch => Protects cfg cur sch) _
        (fun sch c hc => setShift_protects hc) _ _ hq
    · split
      · exact foldl_pres (fun sch => Protects cfg cur sch) _
          (fun sch ic hc => by dsimp only; split <;> exact setShift_protects hc) _ _ hq
      · exact foldl_pres (fun sch => Protects cfg cur sch) _
          (fun sch c hc => setShift_protects hc) _ _ hq

theorem p3Selected_protects (cfg : GenCfg) (cur : GSched) (day : Nat) :
    ∀ (q : GSched × (Nat → Nat)) (s : Staff),
      Protects cfg cur q.1 → Protects cfg cur (p3Selected cfg day q s).1 := by
  intro q s hq
  unfold p3Selected
  dsimp only
  split
  · exact setShift_protects (setShift_protects hq)
  · exact setShift_protects hq

theorem p3Saturday_protects (cfg : GenCfg) (cur : GSched) (qualifiedRegulars : List Staff) :
    ∀ (x : P3St) (day : Nat),
      Protects cfg cur x.sched → Protects cfg cur (p3Saturday cfg qualifiedRegulars x day).sched := by
  intro x day hq
  unfold p3Saturday
  dsimp only
  refine foldl_pres (fun sch => Protects cfg cur sch) _ ?_ _ _
    (foldl_pres (fun (q : GSched × (Nat → Nat)) => Protects cfg cur q.1) _
      (p3Selected_protects cfg cur day) _ _ hq)
  intro sch s hc
  dsimp only
  split
  · exact hc
  · split
    · exact hc
    · exact setShift_protects hc

theorem phase3_protects (cfg : GenCfg) (cur : GSched) {st : GSt}
    (h : Protects cfg cur st.sched) :
    Protects cfg cur (phase3_Saturday cfg st).sched := by
  unfold phase3_Saturday
  dsimp only
  exact foldl_pres (fun (x : P3St) => Protects cfg cur x.sched) _
    (p3Saturday_protects cfg cur _) _ _ h


theorem assignLoop_protects (cfg : GenCfg) (cur : GSched) (day : Nat) (relax : Bool)
    (pattern : Cell) (needed : Nat) :
    ∀ (l : List Staff) (sch : GSched) (ids : List Nat) (count : Nat),
      Protects cfg cur sch →
      Protects cfg cur (assignLoop cfg day relax pattern needed l sch ids count).1 := by
  intro l
  induction l with
  | nil => intro sch ids count h; exact h
  | cons s rest ih =>
    intro sch ids count h
    unfold assignLoop
    split
    · exact h
    · split
      · exact ih _ _ _ (setShift_protects h)
      · exact ih _ _ _ h

theorem assignPattern_protects (cfg : GenCfg) (cur : GSched) (day : Nat) (pattern : Cell)
    (targetCount : Nat) (detTie : Bool) (regulars : List Staff) :
    ∀ (st : P4St), Protects cfg cur st.sched →
      Protects cfg cur (assignPattern cfg day pattern targetCount detTie regulars st).sched := by
  intro st h
  unfold assignPattern
  dsimp only
  split
  · exact h
  · split
    · exact assignLoop_protects cfg cur day true pattern _ _ _ _ _
        (assignLoop_protects cfg cur day false pattern _ _ _ _ _ h)
    · exact assignLoop_protects cfg cur day false pattern _ _ _ _ _ h

theorem phase4Day_protects (cfg : GenCfg) (cur : GSched) (regulars : List Staff) :
    ∀ (st : GSt) (d : Nat), Protects cfg cur st.sched →
      Protects cfg cur (phase4Day cfg regulars st d).sched := by
  intro st d h
  unfold phase4Day
  dsimp only
  split
  · exact h
  · refine foldl_pres (fun sch => Protects cfg cur sch) _ ?_ _ _ ?_
    · intro sch s hc
      unfold p4Remaining
      exact setShift_protects hc
    · apply assignPattern_protects
      apply assignPattern_protects
      apply assignPattern_protects
      split
      · exact assignPattern_protects cfg cur _ _ _ _ _ _
          (assignPattern_protects cfg cur _ _ _ _ _ _ h)
      · exact assignPattern_protects cfg cur _ _ _ _ _ _
          (assignPattern_protects cfg cur _ _ _ _ _ _ h)

theorem phase4_protects (cfg : GenCfg) (cur : GSched) {st : GSt}
    (h : Protects cfg cur st.sched) :
    Protects cfg cur (phase4_RegularWeekday cfg st).sched := by
  unfold phase4_RegularWeekday
  exact foldl_pres (fun (x : GSt) => Protects cfg cur x.sched) _
    (phase4Day_protects cfg cur _) _ _ h

theorem p45Day_protects (cfg : GenCfg) (cur : GSched) :
    ∀ (sch : GSched) (d : Nat), Protects cfg cur sch →
      Protects cfg cur (p45Day cfg sch d) := by
  intro sch d h
  unfold p45Day
  dsimp only
  repeat' split
  all_goals
    first
      | exact h
      | exact setShift_protects h
      | exact setShift_protects (setShift_protects h)

theorem phase4_5_protects (cfg : GenCfg) (cur : GSched) {st : GSt}
    (h : Protects cfg cur st.sched) :
    Protects cfg cur (phase4_5_LateShiftCoverage cfg st).sched := by
  unfold phase4_5_LateShiftCoverage
  exact foldl_pres (fun sch => Protects cfg cur sch) _ (p45Day_protects cfg cur) _ _ h

theorem phase5_protects (cfg : GenCfg) (cur : GSched) {st : GSt}
    (h : Protects cfg cur st.sched) :
    Protects cfg cur (phase5_PartTime cfg st).sched := h


theorem p6PatternLoop_protects (cfg : GenCfg) (cur : GSched) (day : Nat) (pid : Cell)
    (minCount : Nat) :
    ∀ (l : List Staff) (sch : GSched) (count : Nat), Protects cfg cur sch →
      Protects cfg cur (p6PatternLoop cfg day pid minCount l sch count) := by
  intro l
  induction l with
  | nil => intro sch count h; exact h
  | cons s rest ih =>
    intro sch count h
    unfold p6PatternLoop
    split
    · exact h
    · split
      · exact ih _ _ (setShift_protects h)
      · exact ih _ _ h

theorem p6PatternStep_protects (cfg : GenCfg) (cur : GSched) (day : Nat) :
    ∀ (sch : GSched) (pm : Cell × Nat), Protects cfg cur sch →
      Protects cfg cur (p6PatternStep cfg day sch pm) := by
  intro sch pm h
  unfold p6PatternStep
  dsimp only
  split
  · exact p6PatternLoop_protects cfg cur day pm.1 pm.2 _ _ _ h
  · exact h

theorem minTotalLoop_protects (cfg : GenCfg) (cur : GSched) (day : Nat) :
    ∀ (fuel : Nat) (sch : GSched), Protects cfg cur sch →
      Protects cfg cur (minTotalLoop cfg day fuel sch) := by
  intro fuel
  induction fuel with
  | zero => intro sch h; exact h
  | succ f ih =>
    intro sch h
    unfold minTotalLoop
    split
    · exact h
    · split
      · exact h
      · exact ih _ (setShift_protects h)

theorem phase6_protects (cfg : GenCfg) (cur : GSched) {st : GSt}
    (h : Protects cfg cur st.sched) :
    Protects cfg cur (phase6_MinCountAdjustment cfg st).sched := by
  unfold phase6_MinCountAdjustment
  dsimp only
  refine foldl_pres (fun sch => Protects cfg cur sch) _ ?_ _ _ h
  intro sch d hq
  dsimp only
  split
  · exact hq
  · exact minTotalLoop_protects cfg cur d _ _
      (foldl_pres (fun sch => Protects cfg cur sch) _
        (p6PatternStep_protects cfg cur d) _ _ hq)

theorem p7TryReassignLoop_protects (cfg : GenCfg) (cur : GSched) (day : Nat)
    (pattern : Cell) :
    ∀ (l : List Staff) (sch : GSched),
      (∀ s ∈ l, cellAt sch day s.id = Cell.B) → Protects cfg cur sch →
      Protects cfg cur (p7TryReassignLoop cfg day pattern l sch).1 := by
  intro l
  induction l with
  | nil => intro sch _ h; exact h
  | cons s rest ih =>
    intro sch hB h
    unfold p7TryReassignLoop
    split
    · have hb := hB s (List.mem_cons_self s rest)
      exact updateCell_protects_of_ne (by rw [hb]; exact ⟨by simp, by simp⟩) h
    · exact ih _ (fun x hx => hB x (List.mem_cons_of_mem s hx)) h

theorem p7TryReassignBStaff_protects (cfg : GenCfg) (cur : GSched) (day : Nat)
    (pattern : Cell) (minCount : Nat) :
    ∀ (sch : GSched), Protects cfg cur sch →
      Protects cfg cur (p7TryReassignBStaff cfg day sch pattern minCount).1 := by
  intro sch h
  unfold p7TryReassignBStaff
  dsimp only
  split
  · exact h
  · apply p7TryReassignLoop_protects cfg cur day pattern _ _ _ h
    intro s hs
    have hmem : s ∈ cfg.staff.filter (fun s =>
        s.position != StaffPosition.director && s.position != StaffPosition.chief &&
          s.shiftType == StaffShiftType.regular && cellAt sch day s.id == Cell.B) :=
      List.mem_mergeSort.mp hs
    have hp := (List.mem_filter.mp hmem).2
    have := ((Bool.and_eq_true _ _).mp hp).2
    simpa using this

theorem p7AssignIfShort_protects (cfg : GenCfg) (cur : GSched) (day : Nat)
    (chief : Staff) (pattern : Cell) (minCount : Nat) :
    ∀ (sch : GSched) (bc : Nat), Protects cfg cur sch →
      Protects cfg cur (p7AssignIfShort cfg day chief sch bc pattern minCount).1 := by
  intro sch bc h
  unfold p7AssignIfShort
  dsimp only
  have hr := p7TryReassignBStaff_protects cfg cur day pattern minCount sch h
  split
  · exact hr
  · split
    · split
      · exact hr
      · exact setShift_protects hr
    · exact hr

theorem p7Prio_protects (cfg : GenCfg) (cur : GSched) (day : Nat) (chief : Staff) :
    ∀ (l : List (Cell × Nat)) (p : GSched × Nat), Protects cfg cur p.1 →
      Protects cfg cur (p7Prio cfg day chief l p).1 := by
  intro l
  induction l with
  | nil => intro p h; exact h
  | cons pm rest ih =>
    intro p h
    unfold p7Prio
    dsimp only
    split
    · exact p7AssignIfShort_protects cfg cur day chief pm.1 pm.2 _ _ h
    · exact ih _ (p7AssignIfShort_protects cfg cur day chief pm.1 pm.2 _ _ h)

theorem phase7Day_protects (cfg : GenCfg) (cur : GSched) (chief : Staff) :
    ∀ (p : GSched × Nat) (d : Nat), Protects cfg cur p.1 →
      Protects cfg cur (phase7Day cfg chief p d).1 := by
  intro p d h
  unfold phase7Day
  dsimp only
  have hprio := p7Prio_protects cfg cur d chief
    [(Cell.A, 2), (Cell.J, 2), (Cell.D, 1), (Cell.E, 1), (Cell.C, 1)] p h
  repeat' split
  all_goals
    first
      | exact h
      | exact setShift_protects h
      | exact hprio
      | exact setShift_protects hprio

theorem phase7_protects (cfg : GenCfg) (cur : GSched) {st : GSt}
    (h : Protects cfg cur st.sched) :
    Protects cfg cur (phase7_ChiefBackup cfg st).sched := by
  unfold phase7_ChiefBackup
  split
  · exact h
  · exact foldl_pres (fun (p : GSched × Nat) => Protects cfg cur p.1) _
      (phase7Day_protects cfg cur _) _ _ h


theorem fillDay_protects (cfg : GenCfg) (cur : GSched) (d : Nat) :
    ∀ (sch : GSched), Protects cfg cur sch → Protects cfg cur (fillDay cfg d sch) := by
  intro sch h
  unfold fillDay
  refine foldl_pres (fun sch => Protects cfg cur sch) _ ?_ _ _ h
  intro sch2 s hc
  split
  · rename_i hcond
    have hemp : cellAt sch2 d s.id = Cell.emp := by
      simpa using ((Bool.and_eq_true _ _).mp hcond).1
    exact updateCell_protects_of_ne (by rw [hemp]; exact ⟨by simp, by simp⟩) hc
  · exact hc

theorem phase9_protects (cfg : GenCfg) (cur : GSched) {st : GSt}
    (h : Protects cfg cur st.sched) :
    Protects cfg cur (phase9_FillEmpty cfg st).sched := by
  unfold phase9_FillEmpty
  dsimp only
  exact foldl_pres (fun sch => Protects cfg cur sch) _
    (fun sch d hc => fillDay_protects cfg cur d sch hc) _ _ h

theorem phase8_protects (cfg : GenCfg) (cur : GSched) {st : GSt}
    (h : Protects cfg cur st.sched) :
    Protects cfg cur (phase8_CompensatoryOff cfg st).sched := h

theorem finalSafetyFill_protects (cfg : GenCfg) (cur : GSched) {sch : GSched}
    (h : Protects cfg cur sch) : Protects cfg cur (finalSafetyFill cfg sch) := by
  unfold finalSafetyFill
  exact foldl_pres (fun sch => Protects cfg cur sch) _
    (fun sch d hc => fillDay_protects cfg cur d sch hc) _ _ h

theorem phase10Staff_protects (cfg : GenCfg) (cur : GSched) (d0 p : Nat) :
    ∀ (sch : GSched) (s : Staff), Protects cfg cur sch →
      Protects cfg cur (phase10Staff cfg d0 p sch s) := by
  intro sch s h
  unfold phase10Staff
  dsimp only
  repeat' split
  all_goals
    first
      | exact h
      | exact setShift_protects h
      | exact setShift_protects (setShift_protects h)
      | exact setShift_protects (setShift_protects (setShift_protects h))

theorem phase10Day_protects (cfg : GenCfg) (cur : GSched) :
    ∀ (sch : GSched) (d : Nat), Protects cfg cur sch →
      Protects cfg cur (phase10Day cfg sch d) := by
  intro sch d h
  unfold phase10Day
  dsimp only
  split
  · exact h
  · split
    · exact h
    · exact foldl_pres (fun sch => Protects cfg cur sch) _
        (phase10Staff_protects cfg cur d _) _ _ h

theorem phase10_protects (cfg : GenCfg) (cur : GSched) {st : GSt}
    (h : Protects cfg cur st.sched) :
    Protects cfg cur (phase10_Validation cfg st).sched := by
  unfold phase10_Validation
  exact foldl_pres (fun sch => Protects cfg cur sch) _
    (phase10Day_protects cfg cur) _ _ h

/-- C1: protection of manual leave entries: for every input, every day
of the target month and every roster staff member whose cell in the
caller-supplied existing schedule holds paid leave or the compensatory
day off, the schedule returned by generate holds the identical value
in that cell, unchanged by every phase, including the direct
reassignment of phase 7 that bypasses setShift (it only rewrites cells
currently holding the base mid band). -/
theorem claim_C1_protection (cfg : GenCfg) (cur : GSched) (d sid : Nat)
    (hd1 : 1 ≤ d) (hd2 : d ≤ cfg.daysInMonth)
    (hids : ∃ s ∈ cfg.staff, s.id = sid)
    (hcur : cellAt cur d sid = Cell.yu ∨ cellAt cur d sid = Cell.fu) :
    cellAt (generate cfg cur) d sid = cellAt cur d sid := by
  unfold generate
  exact finalSafetyFill_protects cfg cur
    (phase10_protects cfg cur
      (phase9_protects cfg cur
        (phase8_protects cfg cur
          (phase7_protects cfg cur
            (phase6_protects cfg cur
              (phase5_protects cfg cur
                (phase4_5_protects cfg cur
                  (phase4_protects cfg cur
                    (phase3_protects cfg cur
                      (phase2_5_protects cfg cur
                        (phase2_protects cfg cur
                          (phase1_protects cfg cur
                            (initSchedule_protects cfg cur)))))))))))))
    d sid hd1 hd2 hids hcur

/-- Witness for C1: the paid-leave entry on day 3 of the example input
is returned unchanged. -/
theorem claim_C1_witness :
    1 ≤ 3 ∧ 3 ≤ exGenCfg.daysInMonth ∧ (∃ s ∈ exGenCfg.staff, s.id = 1) ∧
    (cellAt exGenCur 3 1 = Cell.yu ∨ cellAt exGenCur 3 1 = Cell.fu) ∧
    cellAt (generate exGenCfg exGenCur) 3 1 = cellAt exGenCur 3 1 :=
  ⟨by decide, by decide, ⟨exGenStaff, by decide, by decide⟩, by decide,
    claim_C1_protection exGenCfg exGenCur 3 1 (by decide) (by decide)
      ⟨exGenStaff, by decide, by decide⟩ (by decide)⟩

end Gen

end ShiftPalette
